import Mathlib

/-!
HoneyBadger Pro frontend (`pro/frontend/app.js`)

A shallow embedding of the client's view logic.  Server payloads become
structures, the DOM containers the client writes to become fields of a
`Dom` record that the rendering functions pass along, and every button the
client puts on screen becomes a `Button` value carrying the class, the
handler, the job id handed to the handler and the visible label.
-/

namespace HoneyBadger

/-! ## Payloads -/

/-- One entry of `job.assignments`. -/
structure Assignment where
  user_id : Int
  username : String
  initials : String
  is_clocked_in : Bool
  deriving DecidableEq, Repr

/-- A job payload as returned by `/api/jobs`. -/
structure Job where
  id : Int
  job_name : String
  description : Option String
  requirements : Option String
  is_archived : Bool
  marked_for_review : Bool
  is_complete : Bool
  current_workers : Int
  max_workers : Int
  total_time_seconds : Option Int
  assignments : List Assignment
  deriving DecidableEq, Repr

/-- The logged-in user (`currentUser`). -/
structure User where
  id : Int
  username : String
  initials : String
  role : String
  deriving DecidableEq, Repr

/-- A `<button class=… onclick="handler(arg)">label</button>` element. -/
structure Button where
  cls : String
  handler : String
  arg : Int
  label : String
  deriving DecidableEq, Repr

/-! ## Utilities -/

/-- `String.prototype.padStart(target, pad)` for a one-character pad. -/
def padStart (s : String) (target : Nat) (pad : Char) : String :=
  String.mk (List.replicate (target - s.length) pad ++ s.data)

/-! ## Numbers

JavaScript numbers are IEEE 754 doubles.  A finite double is carried by its
exact rational value; every arithmetic result is rounded to the nearest
double, ties to even. -/

/-- Nearest integer, a tie going to the even one. -/
def roundHalfEven (y : ℚ) : Int :=
  if y - (⌊y⌋ : ℚ) < 1 / 2 then ⌊y⌋
  else if 1 / 2 < y - (⌊y⌋ : ℚ) then ⌊y⌋ + 1
  else if ⌊y⌋ % 2 = 0 then ⌊y⌋ else ⌊y⌋ + 1

/-- Binary exponent of the last place of a double near `x`: 52 below the
exponent of `x`, and never below that of the subnormal numbers. -/
def ulpExp (x : ℚ) : Int :=
  max (Int.log 2 |x|) (-1022) - 52

/-- The value `x` rounded to the binary64 grid (round to nearest, ties to even). -/
def roundDouble (x : ℚ) : ℚ :=
  (roundHalfEven (x / 2 ^ ulpExp x) : ℚ) * 2 ^ ulpExp x

/-- A Number value; `-0` is not told apart from `0`. -/
inductive Number where
  | nan
  | infinity (negative : Bool)
  | finite (value : ℚ)
  deriving DecidableEq, Repr

/-- The Number for a real value: the nearest double, or an infinity past the largest one. -/
def Number.ofRat (x : ℚ) : Number :=
  if (2 : ℚ) ^ (1024 : Int) ≤ |roundDouble x| then .infinity (decide (x < 0))
  else .finite (roundDouble x)


/-- Truncation toward zero, the integer quotient behind the `%` operator. -/
def jsTrunc (x : ℚ) : Int :=
  if 0 ≤ x then ⌊x⌋ else ⌈x⌉

/-- The `%` operator on finite numbers: the remainder takes the sign of the
dividend and is exact. -/
def jsRem (x y : ℚ) : ℚ :=
  x - y * (jsTrunc (x / y) : ℚ)

/-- `a / c` for a positive finite divisor `c`. -/
def Number.div (a : Number) (c : ℚ) : Number :=
  match a with
  | .nan => .nan
  | .infinity negative => .infinity negative
  | .finite x => Number.ofRat (x / c)

/-- `a % c` for a positive finite divisor `c`. -/
def Number.rem (a : Number) (c : ℚ) : Number :=
  match a with
  | .nan => .nan
  | .infinity _ => .nan
  | .finite x => .finite (jsRem x c)

/-- `a - b`. -/
def Number.sub (a b : Number) : Number :=
  match a, b with
  | .nan, _ => .nan
  | _, .nan => .nan
  | .infinity n1, .infinity n2 => if n1 = n2 then .nan else .infinity n1
  | .infinity n1, .finite _ => .infinity n1
  | .finite _, .infinity n2 => .infinity (!n2)
  | .finite x, .finite y => Number.ofRat (x - y)

/-- `!a`: true for `NaN` and zero. -/
def Number.falsy (a : Number) : Bool :=
  match a with
  | .nan => true
  | .infinity _ => false
  | .finite x => decide (x = 0)

/-- `a < 0`. -/
def Number.ltZero (a : Number) : Bool :=
  match a with
  | .nan => false
  | .infinity negative => negative
  | .finite x => decide (x < 0)

/-- What `Math.floor` returns: `NaN`, an infinity or a whole number. -/
inductive Whole where
  | nan
  | infinity (negative : Bool)
  | int (z : Int)
  deriving DecidableEq, Repr

/-- `Math.floor(a)`. -/
def Number.floor (a : Number) : Whole :=
  match a with
  | .nan => .nan
  | .infinity negative => .infinity negative
  | .finite x => .int ⌊x⌋

/-- The candidates `(s, n)` with `k` digits for the exponent notation of the
double `z`: `s` has `k` digits and `s * 10^(n-k)` rounds to `z`. -/
def expCandidates (z k : Nat) : List (Nat × Nat) :=
  let n0 := (Nat.repr z).length
  ([n0, n0 + 1].flatMap (fun n =>
    [z / 10 ^ (n - k), z / 10 ^ (n - k) + 1].map (fun s => (s, n)))).filter
    (fun p => decide (10 ^ (k - 1) ≤ p.1 ∧ p.1 < 10 ^ k ∧
      roundDouble ((p.1 * 10 ^ (p.2 - k) : Nat) : ℚ) = (z : ℚ)))

/-- Of two candidates the one whose value is closer to `z`, the even one on a tie. -/
def closer (z k : Nat) (p q : Nat × Nat) : Nat × Nat :=
  let dp := Int.natAbs ((p.1 * 10 ^ (p.2 - k) : Nat) - (z : Int))
  let dq := Int.natAbs ((q.1 * 10 ^ (q.2 - k) : Nat) - (z : Int))
  if dq < dp ∨ (dq = dp ∧ q.1 % 2 = 0) then q else p

/-- The digits `s`, their number `k` and the decimal point position `n` of
Number-to-string for a double `z` that is a whole number: the least `k` with
a candidate, and the closest candidate for that `k`. -/
def expDigits (z : Nat) : Nat × Nat × Nat :=
  match (List.range 17).filterMap (fun i =>
      match expCandidates z (i + 1) with
      | [] => none
      | p :: ps => some (ps.foldl (closer z (i + 1)) p, i + 1)) with
  | [] => (z, (Nat.repr z).length, (Nat.repr z).length)
  | (p, k) :: _ => (p.1, k, p.2)

/-- Number-to-string of a whole number `z ≥ 0` held in a double.  Below
`2^53` every whole number is a double, so the shortest digits that read back
as `z` are its decimal digits.  From there on the shortest digits `s` are
followed by zeros while the number has at most 21 digits, and put in
exponent notation beyond. -/
def natToString (z : Nat) : String :=
  if z < 2 ^ 53 then Nat.repr z
  else
    let d := expDigits z
    if d.2.2 ≤ 21 then
      Nat.repr d.1 ++ String.mk (List.replicate (d.2.2 - d.2.1) '0')
    else
      let digits := (Nat.repr d.1).data
      let mantissa :=
        match digits with
        | [] => []
        | c :: [] => [c]
        | c :: rest => c :: '.' :: rest
      String.mk mantissa ++ "e+" ++ Nat.repr (d.2.2 - 1)

/-- Number-to-string, as a template literal and `toString()` apply it to a
result of `Math.floor`. -/
def Whole.toString (w : Whole) : String :=
  match w with
  | .nan => "NaN"
  | .infinity false => "Infinity"
  | .infinity true => "-Infinity"
  | .int z => if z < 0 then "-" ++ natToString z.natAbs else natToString z.natAbs

/-- `formatDuration(seconds)` on a Number. -/
def formatDurationNum (seconds : Number) : String :=
  if seconds.falsy || seconds.ltZero then "0:00:00"
  else
    let hrs := (seconds.div 3600).floor
    let mins := ((seconds.rem 3600).div 60).floor
    let secs := (seconds.rem 60).floor
    hrs.toString ++ ":" ++ padStart mins.toString 2 '0' ++ ":" ++ padStart secs.toString 2 '0'

/-- `formatDuration(seconds)` on the `total_time_seconds` of a payload: a
missing value is `none`, a whole number is read as the nearest double. -/
def formatDuration (seconds : Option Int) : String :=
  match seconds with
  | none => "0:00:00"
  | some s => formatDurationNum (Number.ofRat s)


/-- The three numbers `hrs`, `mins`, `secs` that `formatDuration` computes. -/
def hms (seconds : Number) : Whole × Whole × Whole :=
  ((seconds.div 3600).floor, ((seconds.rem 3600).div 60).floor, (seconds.rem 60).floor)

/-- The hours, minutes and seconds that `formatDuration` prints for
`seconds`: all zero on the early return, `hrs`, `mins`, `secs` otherwise. -/
def shownParts (seconds : Number) : Whole × Whole × Whole :=
  if seconds.falsy || seconds.ltZero then (.int 0, .int 0, .int 0) else hms seconds

/-- The text of a triple, as the template literal of `formatDuration` lays it out. -/
def renderParts (p : Whole × Whole × Whole) : String :=
  p.1.toString ++ ":" ++ padStart p.2.1.toString 2 '0' ++ ":" ++ padStart p.2.2.toString 2 '0'

/-- JavaScript truthiness of `x?.is_clocked_in`, where `x` may be `undefined`. -/
def truthy (b : Option Bool) : Bool :=
  match b with
  | some true => true
  | _ => false

/-! ## Job modal -/

/-- The status line of the job modal (`modal-status`). -/
def modalStatus (job : Job) : String :=
  if job.is_complete then "Complete"
  else if job.marked_for_review then "Pending Review"
  else if job.assignments.any (fun a => a.is_clocked_in) then "In Progress"
  else "Open"

/-- `isAssigned`: some entry of `job.assignments` carries the user's id. -/
def isAssigned (job : Job) (currentUser : User) : Bool :=
  job.assignments.any (fun a => a.user_id == currentUser.id)

/-- The first assignment of `uid` in the job's list, as `find` returns it. -/
def myAssignment (job : Job) (uid : Int) : Option Assignment :=
  job.assignments.find? (fun a => a.user_id == uid)

/-- `isClockedIn`: the flag of the assignment `find` returns, `undefined`
(falsy) when there is none. -/
def isClockedIn (job : Job) (currentUser : User) : Bool :=
  truthy ((myAssignment job currentUser.id).map (fun a => a.is_clocked_in))

/-- `isFull`: `job.current_workers >= job.max_workers`. -/
def isFull (job : Job) : Bool :=
  decide (job.current_workers ≥ job.max_workers)

/-- `isAdmin`: `currentUser.role === 'admin'`. -/
def isAdmin (currentUser : User) : Bool :=
  currentUser.role == "admin"

/-- The `actions` array that `openJobModal` builds for `job` and `currentUser`. -/
def modalActions (job : Job) (currentUser : User) : List Button :=
  if !job.is_archived && !job.marked_for_review then
    (if !isAssigned job currentUser && !isFull job then
        [Button.mk "btn btn-primary" "joinJob" job.id "Join Job"]
      else [])
    ++ (if isAssigned job currentUser then
          (if isClockedIn job currentUser then
              [Button.mk "btn btn-warning" "clockOut" job.id "Clock Out"]
            else
              [Button.mk "btn btn-primary" "clockIn" job.id "Clock In",
               Button.mk "btn btn-secondary" "leaveJob" job.id "Leave Job"])
          ++ [Button.mk "btn" "markJobComplete" job.id "Mark Complete"]
        else [])
    ++ (if isAdmin currentUser then
          [Button.mk "btn btn-danger" "deleteJob" job.id "Delete Job"]
        else [])
  else []

/-- What `openJobModal` puts into the modal. -/
structure Modal where
  job_name : String
  description : String
  requirements : Option String
  workers : String
  status : String
  time : String
  assignments : List Assignment
  actions : List Button
  deriving DecidableEq, Repr

/-- `openJobModal(jobId, isArchived)`: `none` when no job has that id
(the function returns before touching the modal). -/
def openJobModal (jobs archivedJobs : List Job) (currentUser : User)
    (jobId : Int) (isArchived : Bool) : Option Modal :=
  let found :=
    if isArchived then archivedJobs.find? (fun j => j.id == jobId)
    else jobs.find? (fun j => j.id == jobId)
  match found with
  | none => none
  | some job =>
    some
      { job_name := job.job_name
        description := (match job.description with
          | some d => if d = "" then "No description" else d
          | none => "No description")
        requirements := (match job.requirements with
          | some r => if r = "" then none else some r
          | none => none)
        workers := toString job.current_workers ++ "/" ++ toString job.max_workers
        status := modalStatus job
        time := formatDuration job.total_time_seconds
        assignments := job.assignments
        actions := modalActions job currentUser }

/-- A label is offered by a list of buttons when one of them carries it. -/
def offers (bs : List Button) (label : String) : Prop :=
  label ∈ bs.map (fun b => b.label)

instance (bs : List Button) (label : String) : Decidable (offers bs label) := by
  unfold offers; infer_instance

/-- The user holds an assignment on the job. -/
def hasAssignment (job : Job) (uid : Int) : Prop :=
  ∃ a ∈ job.assignments, a.user_id = uid

/-! ## Job board and review queue -/

/-- One `job-card` of the job board; clicking it calls `openJobModal(job_id)`. -/
structure JobCard where
  job_id : Int
  statusClass : String
  job_name : String
  statusBadge : String
  description : Option String
  workers : String
  time : String
  deriving DecidableEq, Repr

/-- One `job-card review` of the review queue, with its two buttons. -/
structure ReviewCard where
  job_name : String
  statusBadge : String
  workers : String
  time : String
  buttons : List Button
  deriving DecidableEq, Repr

/-- Content of a list container: the empty-state message or the cards. -/
inductive Listing (α : Type) where
  | emptyState (message : String)
  | cards (cs : List α)
  deriving DecidableEq, Repr

/-- The cards a container shows (none under the empty-state message). -/
def Listing.shown {α : Type} : Listing α → List α
  | .emptyState _ => []
  | .cards cs => cs

/-- The two containers `renderJobBoard` and `renderReviewQueue` write to. -/
structure Dom where
  jobsList : Listing JobCard
  reviewQueue : Listing ReviewCard
  deriving DecidableEq, Repr

/-- The card `renderJobBoard` maps a job to. -/
def jobCard (job : Job) : JobCard :=
  let hasActiveWorker := job.assignments.any (fun a => a.is_clocked_in)
  { job_id := job.id
    statusClass := if hasActiveWorker then "in-progress" else ""
    job_name := job.job_name
    statusBadge := if hasActiveWorker then "In Progress" else "Open"
    description := (match job.description with
      | some d => if d = "" then none else some d
      | none => none)
    workers := toString job.current_workers ++ "/" ++ toString job.max_workers
    time := formatDuration job.total_time_seconds }

/-- The card `renderReviewQueue` maps a job to. -/
def reviewCard (job : Job) : ReviewCard :=
  { job_name := job.job_name
    statusBadge := "Pending Review"
    workers := toString job.current_workers
    time := formatDuration job.total_time_seconds
    buttons :=
      [Button.mk "btn btn-small btn-primary" "approveJob" job.id "Approve",
       Button.mk "btn btn-small btn-secondary" "reopenJob" job.id "Reopen"] }

/-- `renderReviewQueue()`: rewrites the `review-queue` container. -/
def renderReviewQueue (jobs : List Job) (dom : Dom) : Dom :=
  let reviewJobs := jobs.filter (fun j => j.marked_for_review)
  if reviewJobs.length = 0 then
    { dom with reviewQueue := .emptyState "No jobs pending review" }
  else
    { dom with reviewQueue := .cards (reviewJobs.map reviewCard) }

/-- `renderJobBoard()`: rewrites the `jobs-list` container and, past the
early return, the review queue for an admin. -/
def renderJobBoard (jobs : List Job) (currentUser : User) (dom : Dom) : Dom :=
  let activeJobs := jobs.filter (fun j => !j.is_archived && !j.marked_for_review)
  if activeJobs.length = 0 then
    { dom with jobsList := .emptyState "No jobs available" }
  else
    let dom1 := { dom with jobsList := .cards (activeJobs.map jobCard) }
    if currentUser.role == "admin" then renderReviewQueue jobs dom1 else dom1

/-! ## Add-job form -/

/-- White space and line terminators that `parseInt` skips at the start. -/
def isStrWhiteSpace (c : Char) : Bool :=
  c.toNat ∈ [0x9, 0xA, 0xB, 0xC, 0xD, 0x20, 0xA0, 0x1680, 0x2000, 0x2001, 0x2002,
    0x2003, 0x2004, 0x2005, 0x2006, 0x2007, 0x2008, 0x2009, 0x200A, 0x2028, 0x2029,
    0x202F, 0x205F, 0x3000, 0xFEFF]

/-- Value of `c` as a digit of radix `R`, if it is one. -/
def radixDigit (R : Nat) (c : Char) : Option Nat :=
  let v : Option Nat :=
    if '0' ≤ c ∧ c ≤ '9' then some (c.toNat - 48)
    else if 'a' ≤ c ∧ c ≤ 'z' then some (c.toNat - 87)
    else if 'A' ≤ c ∧ c ≤ 'Z' then some (c.toNat - 55)
    else none
  v.filter (fun d => d < R)

/-- The leading run of radix-`R` digits of `cs`, as digit values. -/
def leadingDigits (R : Nat) : List Char → List Nat
  | [] => []
  | c :: cs =>
    match radixDigit R c with
    | some d => d :: leadingDigits R cs
    | none => []

/-- ECMAScript `parseInt(string)` with no radix argument: the whole number the
leading digits spell, rounded to a double; `none` stands for `NaN`.  The
result is finite for digit runs below `2^1024`; past that the code returns
an infinity, which `Option Int` does not carry. -/
def parseInt (string : String) : Option Int :=
  let S := string.data.dropWhile isStrWhiteSpace
  let signed : Int × List Char :=
    match S with
    | '-' :: rest => (-1, rest)
    | '+' :: rest => (1, rest)
    | _ => (1, S)
  let based : Nat × List Char :=
    match signed.2 with
    | '0' :: 'x' :: rest => (16, rest)
    | '0' :: 'X' :: rest => (16, rest)
    | _ => (10, signed.2)
  let Z := leadingDigits based.1 based.2
  if Z = [] then none
  else some (signed.1 * ⌊roundDouble ((Z.foldl (fun acc d => acc * based.1 + d) 0 : Nat) : ℚ)⌋)

/-- `value || null` for a text field. -/
def orNull (value : String) : Option String :=
  if value = "" then none else some value

/-- The object the add-job form hands to `createJob`. -/
structure JobData where
  job_name : String
  description : Option String
  requirements : Option String
  max_workers : Int
  auto_review : Bool
  deriving DecidableEq, Repr

/-- The submit handler of `add-job-form`, from the contents of its fields. -/
def addJobFormSubmit (jobName jobDescription jobRequirements jobMaxWorkers : String)
    (jobAutoReview : Bool) : JobData :=
  { job_name := jobName
    description := orNull jobDescription
    requirements := orNull jobRequirements
    max_workers := (match parseInt jobMaxWorkers with
      | none => 1
      | some n => if n = 0 then 1 else n)
    auto_review := jobAutoReview }

/-! ## Assignment engine -/

/-- Modelled from the spec: the job status of the server-side engine, which
is not part of the client source. -/
inductive JobStatus where
  | «open»
  | pending_review
  | complete
  | deleted
  deriving DecidableEq, Repr

/-- Modelled from the spec: the failures the engine's operations name; the
engine is not part of the client source. -/
inductive EngineError where
  | JobFull
  | AlreadyJoined
  | JobNotJoinable
  | NotAssigned
  | CannotLeaveWhileClockedIn
  | AlreadyClockedIn
  | JobNotOpen
  | NoOpenSession
  deriving DecidableEq, Repr

/-- Modelled from the spec: one job of the server-side engine, absent from
the client source, with the users holding an Assignment and the users
holding an open ClockSession. -/
structure EngineJob where
  max_workers : Nat
  status : JobStatus
  assignments : List Int
  openSessions : List Int
  deriving DecidableEq, Repr

/-- Modelled from the spec: `current_workers` is the live Assignment count
of the engine's job, which the client source only reads. -/
def EngineJob.current_workers (j : EngineJob) : Nat :=
  j.assignments.length

/-- Modelled from the spec: `join(jobId, userId)` of the Assignment Manager,
whose code is on the server and absent here. -/
def join (j : EngineJob) (userId : Int) : Except EngineError EngineJob :=
  if j.current_workers ≥ j.max_workers then .error .JobFull
  else if userId ∈ j.assignments then .error .AlreadyJoined
  else if j.status ≠ .open then .error .JobNotJoinable
  else .ok { j with assignments := j.assignments ++ [userId] }

/-- Modelled from the spec: `leave(jobId, userId)` of the Assignment Manager,
whose code is on the server and absent here. -/
def leave (j : EngineJob) (userId : Int) : Except EngineError EngineJob :=
  if userId ∉ j.assignments then .error .NotAssigned
  else if userId ∈ j.openSessions then .error .CannotLeaveWhileClockedIn
  else .ok { j with assignments := j.assignments.erase userId }

/-- Modelled from the spec: `clockIn(jobId, userId)` of the Clock Session
Tracker, whose code is on the server and absent here. -/
def clockIn (j : EngineJob) (userId : Int) : Except EngineError EngineJob :=
  if userId ∉ j.assignments then .error .NotAssigned
  else if userId ∈ j.openSessions then .error .AlreadyClockedIn
  else if j.status ≠ .open then .error .JobNotOpen
  else .ok { j with openSessions := j.openSessions ++ [userId] }

/-- Modelled from the spec: `clockOut(jobId, userId)` of the Clock Session
Tracker, whose code is on the server and absent here. -/
def clockOut (j : EngineJob) (userId : Int) : Except EngineError EngineJob :=
  if userId ∉ j.openSessions then .error .NoOpenSession
  else .ok { j with openSessions := j.openSessions.erase userId }

/-- Modelled from the spec: the requests that touch one job's assignment and
session sets; the server that receives them is absent from the source. -/
inductive Request where
  | join (userId : Int)
  | leave (userId : Int)
  | clockIn (userId : Int)
  | clockOut (userId : Int)
  deriving DecidableEq, Repr

/-- Modelled from the spec: one request handled as a single transition of the
absent server, which commits in full or fails without mutation. -/
def handle (j : EngineJob) (r : Request) : EngineJob :=
  let outcome :=
    match r with
    | .join u => join j u
    | .leave u => leave j u
    | .clockIn u => clockIn j u
    | .clockOut u => clockOut j u
  match outcome with
  | .ok j1 => j1
  | .error _ => j

/-- Modelled from the spec: requests on one job are serialized by the absent
server, so a burst of requests is handled one after the other in some order. -/
def serve (j : EngineJob) (rs : List Request) : EngineJob :=
  rs.foldl handle j

/-- Modelled from the spec: how many of the join attempts of `joiners`,
serialized in list order by the absent server, succeed. -/
def joinSuccesses (j : EngineJob) : List Int → Nat
  | [] => 0
  | u :: us =>
    match join j u with
    | .ok j1 => 1 + joinSuccesses j1 us
    | .error _ => joinSuccesses j us

/-! ## Clock timer -/

/-- JavaScript `Date` time value: whole milliseconds within the range a
`Date` can hold. -/
structure TimeValue where
  ms : Int
  inRange : |ms| ≤ 8640000000000000

/-- The Number a `Date` converts to under `-`: `NaN` for an invalid date. -/
def dateNumber (t : Option TimeValue) : Number :=
  match t with
  | none => .nan
  | some v => .finite (v.ms : ℚ)

/-- The Number `diff` of `update()`: `(now - startTime) / 1000`. -/
def clockDiff (startTime : Option TimeValue) (now : TimeValue) : Number :=
  ((dateNumber (some now)).sub (dateNumber startTime)).div 1000

/-- The text `update()` of `startClockTimer` writes into the timer element
when the clock reads `now`; `startTime` is `none` for an invalid date. -/
def update (startTime : Option TimeValue) (now : TimeValue) : String :=
  formatDurationNum (clockDiff startTime now)

/-- The hours, minutes and seconds shown by the timer started at
`startTime` when the clock reads `now`. -/
def displayedParts (startTime : Option TimeValue) (now : TimeValue) : Whole × Whole × Whole :=
  shownParts (clockDiff startTime now)

/-- Lexicographic order on (hours, minutes, seconds). -/
def partsLe (p q : Int × Int × Int) : Prop :=
  p.1 < q.1 ∨ (p.1 = q.1 ∧ (p.2.1 < q.2.1 ∨ (p.2.1 = q.2.1 ∧ p.2.2 ≤ q.2.2)))

/-! ## Active clocks -/

/-- One entry of `activeClocks` (`/api/time/active`); `clock_in` is the time
value of `new Date(clock.clock_in)`, `none` for an invalid date. -/
structure ActiveClock where
  job_id : Int
  job_name : String
  clock_in : Option TimeValue

/-- One `active-clock-item`: the job name, the timer element with its id and
text, and the button next to it. -/
structure ClockItem where
  job_name : String
  timerId : String
  timerText : String
  button : Button

/-- `startClockTimer(jobId, startTime)` on the rendered items: the first
element with the timer's id gets the text `update()` writes at `now`; with no
such element nothing changes. -/
def startClockTimer (items : List ClockItem) (jobId : Int) (startTime : Option TimeValue)
    (now : TimeValue) : List ClockItem :=
  match items with
  | [] => []
  | item :: rest =>
    if item.timerId = "clock-" ++ Whole.toString (.int jobId) then
      { item with timerText := update startTime now } :: rest
    else item :: startClockTimer rest jobId startTime now

/-- `renderActiveClocks()`: one item per active clock, each with a
`Clock Out` button, then a timer started for each clock. -/
def renderActiveClocks (activeClocks : List ActiveClock) (now : TimeValue) : List ClockItem :=
  let items := activeClocks.map (fun clock =>
    { job_name := clock.job_name
      timerId := "clock-" ++ Whole.toString (.int clock.job_id)
      timerText := "--:--:--"
      button := Button.mk "btn btn-small btn-danger" "clockOut" clock.job_id "Clock Out" })
  activeClocks.foldl (fun items clock => startClockTimer items clock.job_id clock.clock_in now)
    items

/-! ## Decimal notation -/

/-- A natural number in decimal, most significant digit first, without
padding: `0` is the single digit `0`. -/
def decimal (n : Nat) : String :=
  if n = 0 then "0" else String.mk ((Nat.digits 10 n).reverse.map Nat.digitChar)

/-- A number below 100 written with exactly two digits. -/
def twoDigits (n : Nat) : String :=
  String.mk [Nat.digitChar (n / 10), Nat.digitChar (n % 10)]

/-- The text `H:MM:SS` for `s` seconds: hours in decimal without padding,
minutes and seconds with two digits each. -/
def hmsText (s : Nat) : String :=
  decimal (s / 3600) ++ ":" ++ twoDigits (s % 3600 / 60) ++ ":" ++ twoDigits (s % 60)

/-! ## Sample inputs -/

/-- A job waiting for review. -/
def pendingJob : Job :=
  { id := 7, job_name := "Paint fence", description := none, requirements := none,
    is_archived := false, marked_for_review := true, is_complete := false,
    current_workers := 1, max_workers := 2, total_time_seconds := some 3600,
    assignments := [⟨3, "ann", "AN", false⟩] }

/-- An open job on which user 3 is clocked in. -/
def busyJob : Job :=
  { id := 8, job_name := "Mow lawn", description := some "front and back",
    requirements := none, is_archived := false, marked_for_review := false,
    is_complete := false, current_workers := 1, max_workers := 2,
    total_time_seconds := some 125, assignments := [⟨3, "ann", "AN", true⟩] }

/-- An administrator. -/
def adminUser : User :=
  { id := 1, username := "root", initials := "RT", role := "admin" }

/-- The worker assigned on the sample jobs. -/
def workerAnn : User :=
  { id := 3, username := "ann", initials := "AN", role := "worker" }

/-- The two containers before anything was rendered into them. -/
def blankDom : Dom :=
  { jobsList := .cards [], reviewQueue := .cards [] }

/-- An engine job with one slot left. -/
def lastSlotJob : EngineJob :=
  { max_workers := 2, status := .open, assignments := [1], openSessions := [] }

/-- A job waiting for review on which user 3 is still clocked in. -/
def frozenJob : Job :=
  { id := 9, job_name := "Clean gutter", description := none, requirements := none,
    is_archived := false, marked_for_review := true, is_complete := false,
    current_workers := 1, max_workers := 2, total_time_seconds := some 60,
    assignments := [⟨3, "ann", "AN", true⟩] }

/-- The instant a sample timer was started. -/
def timerStart : TimeValue := ⟨1000, by norm_num⟩

/-- An instant 5.5 s after `timerStart`. -/
def firstTick : TimeValue := ⟨6500, by norm_num⟩

/-- An instant 1 h 2 min 6 s after `timerStart`. -/
def laterTick : TimeValue := ⟨3727000, by norm_num⟩

/-- The active clock of user 3 on `frozenJob`. -/
def frozenClock : ActiveClock :=
  { job_id := 9, job_name := "Clean gutter", clock_in := some timerStart }

/-! ## Facts about the modal's flags -/

theorem isAssigned_iff (job : Job) (currentUser : User) :
    isAssigned job currentUser = true ↔ hasAssignment job currentUser.id := by
  simp [isAssigned, hasAssignment, List.any_eq_true]

theorem isAssigned_eq_isSome (job : Job) (currentUser : User) :
    isAssigned job currentUser = (myAssignment job currentUser.id).isSome := by
  unfold isAssigned myAssignment
  induction job.assignments with
  | nil => rfl
  | cons a as ih =>
    by_cases h : a.user_id == currentUser.id <;> simp [List.find?, h, ih]

theorem isClockedIn_assigned (job : Job) (currentUser : User)
    (h : isClockedIn job currentUser = true) : isAssigned job currentUser = true := by
  rw [isAssigned_eq_isSome]
  unfold isClockedIn at h
  cases hm : myAssignment job currentUser.id with
  | none => simp [hm, truthy] at h
  | some a => rfl

theorem isClockedIn_eq (job : Job) (currentUser : User) (a : Assignment)
    (h : myAssignment job currentUser.id = some a) :
    isClockedIn job currentUser = a.is_clocked_in := by
  unfold isClockedIn
  rw [h]
  cases hc : a.is_clocked_in <;> simp [truthy, hc]

theorem isFull_false_iff (job : Job) :
    isFull job = false ↔ job.current_workers < job.max_workers := by
  simp [isFull]

/-! ## The job modal's actions -/

/-- C1: `Leave Job` is among the modal's actions exactly when the job is not
archived, not marked for review, the user has an assignment (the one `find`
returns) and that assignment is not clocked in; it is never offered while
that assignment is clocked in. -/
theorem leaveJob_offered_iff (job : Job) (currentUser : User) :
    (offers (modalActions job currentUser) "Leave Job" ↔
      job.is_archived = false ∧ job.marked_for_review = false ∧
        ∃ a, myAssignment job currentUser.id = some a ∧ a.is_clocked_in = false) ∧
    ¬ (offers (modalActions job currentUser) "Leave Job" ∧
        ∃ a, myAssignment job currentUser.id = some a ∧ a.is_clocked_in = true) := by
  have hs := isAssigned_eq_isSome job currentUser
  unfold offers modalActions
  cases hm : myAssignment job currentUser.id with
  | none =>
    have hc : isClockedIn job currentUser = false := by simp [isClockedIn, hm, truthy]
    rw [hm] at hs
    simp only [hs, hc]
    cases job.is_archived <;> cases job.marked_for_review <;> cases isFull job <;>
      cases isAdmin currentUser <;> simp
  | some a =>
    have hc := isClockedIn_eq job currentUser a hm
    rw [hm] at hs
    simp only [hs, hc]
    cases job.is_archived <;> cases job.marked_for_review <;> cases hk : a.is_clocked_in <;>
      cases isFull job <;> cases isAdmin currentUser <;> simp [hk]

/-- C2: `Join Job` is among the modal's actions exactly when the job is not
archived, not marked for review, the user has no assignment on it and
`current_workers < max_workers`; it is never offered on a full job, to a
user who already holds an assignment, or on an archived or pending-review job. -/
theorem joinJob_offered_iff (job : Job) (currentUser : User) :
    (offers (modalActions job currentUser) "Join Job" ↔
      job.is_archived = false ∧ job.marked_for_review = false ∧
        ¬ hasAssignment job currentUser.id ∧ job.current_workers < job.max_workers) ∧
    ¬ (offers (modalActions job currentUser) "Join Job" ∧
        job.current_workers ≥ job.max_workers) ∧
    ¬ (offers (modalActions job currentUser) "Join Job" ∧
        hasAssignment job currentUser.id) ∧
    ¬ (offers (modalActions job currentUser) "Join Job" ∧
        (job.is_archived = true ∨ job.marked_for_review = true)) := by
  have key : offers (modalActions job currentUser) "Join Job" ↔
      job.is_archived = false ∧ job.marked_for_review = false ∧
        ¬ hasAssignment job currentUser.id ∧ job.current_workers < job.max_workers := by
    rw [← isAssigned_iff, ← isFull_false_iff]
    unfold offers modalActions
    cases job.is_archived <;> cases job.marked_for_review <;> cases isAssigned job currentUser <;>
      cases isClockedIn job currentUser <;> cases isFull job <;>
      cases isAdmin currentUser <;> simp
  refine ⟨key, ?_, ?_, ?_⟩
  · rintro ⟨h, hfull⟩
    have := (key.mp h).2.2.2
    omega
  · rintro ⟨h, hasg⟩
    exact (key.mp h).2.2.1 hasg
  · rintro ⟨h, harch⟩
    have h1 := (key.mp h).1
    have h2 := (key.mp h).2.1
    rcases harch with h3 | h3 <;> simp_all

/-- The labels of the modal's actions, in order. -/
theorem modalActions_labels (job : Job) (currentUser : User) :
    (modalActions job currentUser).map (fun b => b.label) =
      if !job.is_archived && !job.marked_for_review then
        (if !isAssigned job currentUser && !isFull job then ["Join Job"] else [])
        ++ (if isAssigned job currentUser then
              (if isClockedIn job currentUser then ["Clock Out"] else ["Clock In", "Leave Job"])
              ++ ["Mark Complete"]
            else [])
        ++ (if isAdmin currentUser then ["Delete Job"] else [])
      else [] := by
  unfold modalActions
  cases job.is_archived <;> cases job.marked_for_review <;> cases isAssigned job currentUser <;>
    cases isClockedIn job currentUser <;> cases isFull job <;>
    cases isAdmin currentUser <;> rfl

theorem clock_buttons_payload (job : Job) (currentUser : User) :
    (offers (modalActions job currentUser) "Clock Out" ↔
      job.is_archived = false ∧ job.marked_for_review = false ∧
        ∃ a, myAssignment job currentUser.id = some a ∧ a.is_clocked_in = true) ∧
    (offers (modalActions job currentUser) "Clock In" ↔
      job.is_archived = false ∧ job.marked_for_review = false ∧
        ∃ a, myAssignment job currentUser.id = some a ∧ a.is_clocked_in = false) := by
  have hs := isAssigned_eq_isSome job currentUser
  unfold offers
  rw [modalActions_labels]
  cases hm : myAssignment job currentUser.id with
  | none =>
    have hc : isClockedIn job currentUser = false := by simp [isClockedIn, hm, truthy]
    rw [hm] at hs
    simp only [hs, hc]
    cases job.is_archived <;> cases job.marked_for_review <;> cases isFull job <;>
      cases isAdmin currentUser <;> simp
  | some a =>
    have hc := isClockedIn_eq job currentUser a hm
    rw [hm] at hs
    simp only [hs, hc]
    cases job.is_archived <;> cases job.marked_for_review <;> cases hk : a.is_clocked_in <;>
      cases isFull job <;> cases isAdmin currentUser <;> simp [hk]

/-- C3: on a job that is not archived and not marked for review where the
user holds an assignment, the modal offers exactly one of `Clock In` and
`Clock Out`: `Clock Out` when the user's assignment is clocked in, `Clock In`
otherwise.  Without an assignment neither is offered, and `Clock In` is never
offered to a user who is clocked in.  In terms of the payload: `Clock Out`
is offered exactly when the job is open for actions and the `is_clocked_in`
flag of the user's assignment (the entry `find` returns) is set, `Clock In`
exactly when the job is open for actions and that flag is not set. -/
theorem clock_buttons (job : Job) (currentUser : User) :
    (job.is_archived = false → job.marked_for_review = false →
      hasAssignment job currentUser.id →
        ((modalActions job currentUser).map (fun b => b.label)).count "Clock In" +
          ((modalActions job currentUser).map (fun b => b.label)).count "Clock Out" = 1 ∧
        (offers (modalActions job currentUser) "Clock Out" ↔
          isClockedIn job currentUser = true) ∧
        (offers (modalActions job currentUser) "Clock In" ↔
          isClockedIn job currentUser = false)) ∧
    (¬ hasAssignment job currentUser.id →
      ¬ offers (modalActions job currentUser) "Clock In" ∧
      ¬ offers (modalActions job currentUser) "Clock Out") ∧
    (isClockedIn job currentUser = true →
      ¬ offers (modalActions job currentUser) "Clock In") ∧
    (offers (modalActions job currentUser) "Clock Out" ↔
      job.is_archived = false ∧ job.marked_for_review = false ∧
        ∃ a, myAssignment job currentUser.id = some a ∧ a.is_clocked_in = true) ∧
    (offers (modalActions job currentUser) "Clock In" ↔
      job.is_archived = false ∧ job.marked_for_review = false ∧
        ∃ a, myAssignment job currentUser.id = some a ∧ a.is_clocked_in = false) := by
  have hck := isClockedIn_assigned job currentUser
  have hpay := clock_buttons_payload job currentUser
  refine ⟨?_, ?_, ?_, hpay.1, hpay.2⟩
  · simp only [← isAssigned_iff]
    unfold offers
    rw [modalActions_labels]
    intro h1 h2 h3
    rw [h1, h2, h3]
    cases isClockedIn job currentUser <;> cases isFull job <;>
      cases isAdmin currentUser <;> simp
  · simp only [← isAssigned_iff]
    unfold offers
    rw [modalActions_labels]
    intro h3
    have h3 : isAssigned job currentUser = false := by simpa using h3
    rw [h3]
    cases job.is_archived <;> cases job.marked_for_review <;> cases isFull job <;>
      cases isAdmin currentUser <;> simp
  · unfold offers
    rw [modalActions_labels]
    intro h4
    rw [hck h4, h4]
    cases job.is_archived <;> cases job.marked_for_review <;> cases isFull job <;>
      cases isAdmin currentUser <;> simp

/-- C5: `Mark Complete` is among the modal's actions exactly when the user
holds an assignment on the job and the job is neither archived nor marked
for review, whatever the clock-in state; it is never offered to a user
without an assignment. -/
theorem markComplete_offered_iff (job : Job) (currentUser : User) :
    (offers (modalActions job currentUser) "Mark Complete" ↔
      hasAssignment job currentUser.id ∧
        job.is_archived = false ∧ job.marked_for_review = false) ∧
    ¬ (offers (modalActions job currentUser) "Mark Complete" ∧
        ¬ hasAssignment job currentUser.id) := by
  simp only [← isAssigned_iff]
  unfold offers
  rw [modalActions_labels]
  cases job.is_archived <;> cases job.marked_for_review <;> cases isAssigned job currentUser <;>
    cases isClockedIn job currentUser <;> cases isFull job <;>
    cases isAdmin currentUser <;> simp

/-- C6: `Delete Job` is among the modal's actions exactly when the user's
role is `admin` and the job is neither archived nor marked for review,
whatever the assignment, clock-in state and capacity; a user whose role is
not `admin` is never offered it. -/
theorem deleteJob_offered_iff (job : Job) (currentUser : User) :
    (offers (modalActions job currentUser) "Delete Job" ↔
      currentUser.role = "admin" ∧
        job.is_archived = false ∧ job.marked_for_review = false) ∧
    ¬ (offers (modalActions job currentUser) "Delete Job" ∧
        currentUser.role ≠ "admin") := by
  have hadm : isAdmin currentUser = true ↔ currentUser.role = "admin" := by
    simp [isAdmin]
  have hne : currentUser.role ≠ "admin" ↔ isAdmin currentUser = false := by
    simp [isAdmin]
  rw [← hadm, hne]
  unfold offers
  rw [modalActions_labels]
  cases job.is_archived <;> cases job.marked_for_review <;> cases isAssigned job currentUser <;>
    cases isClockedIn job currentUser <;> cases isFull job <;>
    cases isAdmin currentUser <;> simp

/-! ## Job board and review queue -/

theorem renderReviewQueue_shown (jobs : List Job) (dom : Dom) :
    (renderReviewQueue jobs dom).reviewQueue.shown =
      (jobs.filter (fun j => j.marked_for_review)).map reviewCard := by
  unfold renderReviewQueue
  by_cases h : (jobs.filter (fun j => j.marked_for_review)).length = 0
  · simp only [h, if_true, Listing.shown]
    rw [List.length_eq_zero.mp h]
    rfl
  · simp only [h, if_false, Listing.shown]

theorem renderReviewQueue_jobsList (jobs : List Job) (dom : Dom) :
    (renderReviewQueue jobs dom).jobsList = dom.jobsList := by
  unfold renderReviewQueue
  by_cases h : (jobs.filter (fun j => j.marked_for_review)).length = 0
  · simp only [h, if_true]
  · simp only [h, if_false]

theorem startClockTimer_buttons (items : List ClockItem) (jobId : Int)
    (startTime : Option TimeValue) (now : TimeValue) :
    (startClockTimer items jobId startTime now).map (fun i => i.button) =
      items.map (fun i => i.button) := by
  induction items with
  | nil => rfl
  | cons item rest ih =>
    unfold startClockTimer
    split_ifs
    · rfl
    · simp only [List.map_cons, ih]

theorem renderActiveClocks_buttons (activeClocks : List ActiveClock) (now : TimeValue) :
    (renderActiveClocks activeClocks now).map (fun i => i.button) =
      activeClocks.map (fun clock =>
        Button.mk "btn btn-small btn-danger" "clockOut" clock.job_id "Clock Out") := by
  have hfold : ∀ (cs : List ActiveClock) (items : List ClockItem),
      (cs.foldl (fun items clock =>
          startClockTimer items clock.job_id clock.clock_in now) items).map (fun i => i.button) =
        items.map (fun i => i.button) := by
    intro cs
    induction cs with
    | nil => intro items; rfl
    | cons c cs ih =>
      intro items
      rw [List.foldl_cons, ih, startClockTimer_buttons]
  unfold renderActiveClocks
  rw [hfold, List.map_map]
  rfl

/-- C4, as first stated: `frozenJob` is marked for review, and the
active-clocks panel still offers `Clock Out` on it to the user clocked in on
it, an action that is neither `Approve` nor `Reopen`. -/
theorem activeClocks_offer_clockOut_on_review_job :
    frozenJob.marked_for_review = true ∧
    isClockedIn frozenJob workerAnn = true ∧
    ∃ item ∈ renderActiveClocks [frozenClock] laterTick,
      item.button.handler = "clockOut" ∧ item.button.arg = frozenJob.id ∧
      item.button.label = "Clock Out" ∧
      item.button.label ≠ "Approve" ∧ item.button.label ≠ "Reopen" := by
  refine ⟨rfl, rfl, ?_⟩
  have hb := renderActiveClocks_buttons [frozenClock] laterTick
  have hmem : Button.mk "btn btn-small btn-danger" "clockOut" 9 "Clock Out" ∈
      (renderActiveClocks [frozenClock] laterTick).map (fun i => i.button) := by
    rw [hb]
    exact List.mem_singleton.mpr rfl
  obtain ⟨item, hitem, hbtn⟩ := List.mem_map.mp hmem
  refine ⟨item, hitem, ?_⟩
  rw [hbtn]
  decide

/-- C4: on a job marked for review the modal's action list is empty, for
every user, so none of `Join Job`, `Leave Job`, `Clock In`, `Clock Out`,
`Mark Complete` is offered there; the review queue shows the job with the two
buttons `Approve` and `Reopen` and no other; the active-clocks panel, which
does not read the job's flags, carries one `Clock Out` button per active
clock, so it offers `Clock Out` on the job exactly when `activeClocks` holds
an entry with the job's id. -/
theorem review_job_frozen (job : Job) (currentUser : User)
    (h : job.marked_for_review = true) :
    modalActions job currentUser = [] ∧
    (∀ label, ¬ offers (modalActions job currentUser) label) ∧
    (∀ jobs dom, job ∈ jobs →
      reviewCard job ∈ (renderReviewQueue jobs dom).reviewQueue.shown) ∧
    (reviewCard job).buttons.map (fun b => (b.handler, b.arg, b.label)) =
      [("approveJob", job.id, "Approve"), ("reopenJob", job.id, "Reopen")] ∧
    (∀ activeClocks now,
      (renderActiveClocks activeClocks now).map (fun i => i.button) =
        activeClocks.map (fun clock =>
          Button.mk "btn btn-small btn-danger" "clockOut" clock.job_id "Clock Out")) ∧
    (∀ activeClocks now,
      (∃ item ∈ renderActiveClocks activeClocks now,
          item.button.arg = job.id ∧ item.button.label = "Clock Out") ↔
        ∃ clock ∈ activeClocks, clock.job_id = job.id) := by
  have hnil : modalActions job currentUser = [] := by
    unfold modalActions
    simp [h]
  refine ⟨hnil, ?_, ?_, rfl, renderActiveClocks_buttons, ?_⟩
  · intro label
    simp [offers, hnil]
  · intro jobs dom hj
    rw [renderReviewQueue_shown]
    exact List.mem_map.mpr ⟨job, List.mem_filter.mpr ⟨hj, h⟩, rfl⟩
  · intro activeClocks now
    have hb := renderActiveClocks_buttons activeClocks now
    constructor
    · rintro ⟨item, hitem, harg, _⟩
      have hmem : item.button ∈ (renderActiveClocks activeClocks now).map (fun i => i.button) :=
        List.mem_map.mpr ⟨item, hitem, rfl⟩
      rw [hb] at hmem
      obtain ⟨clock, hclock, hbtn⟩ := List.mem_map.mp hmem
      refine ⟨clock, hclock, ?_⟩
      rw [← hbtn] at harg
      exact harg
    · rintro ⟨clock, hclock, hid⟩
      have hmem : Button.mk "btn btn-small btn-danger" "clockOut" clock.job_id "Clock Out" ∈
          (renderActiveClocks activeClocks now).map (fun i => i.button) := by
        rw [hb]
        exact List.mem_map.mpr ⟨clock, hclock, rfl⟩
      obtain ⟨item, hitem, hbtn⟩ := List.mem_map.mp hmem
      refine ⟨item, hitem, ?_⟩
      rw [hbtn]
      exact ⟨hid, rfl⟩

/-- C7: the cards on the job board are those of the jobs with `is_archived`
false and `marked_for_review` false, once each and in the order of the jobs
list; no archived and no pending-review job has a card. -/
theorem jobBoard_shows_active (jobs : List Job) (currentUser : User) (dom : Dom) :
    ∃ shownJobs : List Job,
      (renderJobBoard jobs currentUser dom).jobsList.shown = shownJobs.map jobCard ∧
      shownJobs = jobs.filter (fun j => !j.is_archived && !j.marked_for_review) ∧
      shownJobs.Sublist jobs ∧
      (∀ j, j ∈ shownJobs ↔
        j ∈ jobs ∧ j.is_archived = false ∧ j.marked_for_review = false) ∧
      (∀ j, shownJobs.count j =
        if j.is_archived = false ∧ j.marked_for_review = false then jobs.count j else 0) := by
  refine ⟨jobs.filter (fun j => !j.is_archived && !j.marked_for_review), ?_, rfl,
    List.filter_sublist _, ?_, ?_⟩
  · unfold renderJobBoard
    by_cases h : (jobs.filter (fun j => !j.is_archived && !j.marked_for_review)).length = 0
    · simp only [h, if_true, Listing.shown]
      rw [List.length_eq_zero.mp h]
      rfl
    · simp only [h, if_false]
      by_cases hr : (currentUser.role == "admin") = true
      · simp only [hr, if_true]
        rw [renderReviewQueue_jobsList]
        rfl
      · simp only [hr]
        rfl
  · intro j
    simp [List.mem_filter]
  · intro j
    by_cases hp : (!j.is_archived && !j.marked_for_review) = true
    · have hc : List.count j (jobs.filter (fun j : Job => !j.is_archived && !j.marked_for_review)) =
          List.count j jobs := List.count_filter hp
      rw [hc]
      have hp2 : j.is_archived = false ∧ j.marked_for_review = false := by simpa using hp
      simp [hp2]
    · have hp2 : ¬ (j.is_archived = false ∧ j.marked_for_review = false) := by simpa using hp
      rw [if_neg hp2, List.count_eq_zero]
      intro hmem
      exact hp (List.mem_filter.mp hmem).2

/-! ## Early return of the job board -/

/-- C10: when the only job is one marked for review, `renderJobBoard` run
for an admin returns at the empty-state branch and leaves the review queue
as it was, so the job's card with `Approve` and `Reopen` is not shown, while
`renderReviewQueue` itself would show it. -/
theorem renderJobBoard_admin_skips_reviewQueue :
    (renderJobBoard [pendingJob] adminUser blankDom).reviewQueue = blankDom.reviewQueue ∧
    reviewCard pendingJob ∉ (renderJobBoard [pendingJob] adminUser blankDom).reviewQueue.shown ∧
    reviewCard pendingJob ∈ (renderReviewQueue [pendingJob] blankDom).reviewQueue.shown := by
  refine ⟨by decide, by decide, ?_⟩
  rw [renderReviewQueue_shown]
  exact List.mem_map.mpr
    ⟨pendingJob, List.mem_filter.mpr ⟨List.mem_singleton.mpr rfl, rfl⟩, rfl⟩

/-! ## Capacity of the assignment engine -/

theorem join_ok (j j1 : EngineJob) (u : Int) (h : join j u = .ok j1) :
    j.current_workers < j.max_workers ∧ j1.max_workers = j.max_workers ∧
      j1.current_workers = j.current_workers + 1 := by
  unfold join at h
  split_ifs at h with h1 h2 h3
  injection h with h
  subst h
  simp [EngineJob.current_workers] at h1 ⊢
  omega

theorem join_full (j : EngineJob) (u : Int) (h : j.current_workers ≥ j.max_workers) :
    join j u = .error .JobFull := by
  unfold join
  simp [h]

theorem join_free (j : EngineJob) (u : Int) (h : j.current_workers < j.max_workers)
    (hs : j.status = .open) (hu : u ∉ j.assignments) :
    join j u = .ok { j with assignments := j.assignments ++ [u] } := by
  unfold join
  have h1 : ¬ j.current_workers ≥ j.max_workers := by omega
  simp [h1, hs, hu]

theorem handle_capacity (j : EngineJob) (r : Request)
    (h : j.current_workers ≤ j.max_workers) :
    (handle j r).current_workers ≤ (handle j r).max_workers := by
  cases r with
  | join u =>
    cases hj : join j u with
    | error e =>
      simp only [handle, hj]
      exact h
    | ok j1 =>
      have := join_ok j j1 u hj
      simp only [handle, hj]
      omega
  | leave u =>
    simp only [handle, leave]
    split_ifs
    all_goals first
      | exact h
      | exact le_trans (List.length_erase_le u j.assignments) h
  | clockIn u =>
    simp only [handle, clockIn]
    split_ifs <;> exact h
  | clockOut u =>
    simp only [handle, clockOut]
    split_ifs <;> exact h

theorem serve_capacity (rs : List Request) (j : EngineJob)
    (h : j.current_workers ≤ j.max_workers) :
    (serve j rs).current_workers ≤ (serve j rs).max_workers := by
  induction rs generalizing j with
  | nil => simpa [serve] using h
  | cons r rs ih =>
    have := ih (handle j r) (handle_capacity j r h)
    simpa [serve] using this

theorem joinSuccesses_full (us : List Int) (j : EngineJob)
    (h : j.current_workers ≥ j.max_workers) : joinSuccesses j us = 0 := by
  induction us with
  | nil => rfl
  | cons u us ih =>
    unfold joinSuccesses
    rw [join_full j u h]
    exact ih

theorem joinSuccesses_lastSlot (us : List Int) (j : EngineJob)
    (h : j.current_workers + 1 = j.max_workers) : joinSuccesses j us ≤ 1 := by
  induction us with
  | nil => simp [joinSuccesses]
  | cons u us ih =>
    unfold joinSuccesses
    cases hj : join j u with
    | error e => simpa using ih
    | ok j1 =>
      have hk := join_ok j j1 u hj
      have : joinSuccesses j1 us = 0 := joinSuccesses_full us j1 (by omega)
      simp [this]

/-- C9: in the engine whose requests on one job are handled one at a time,
a job that satisfies `current_workers ≤ max_workers` satisfies it after
every sequence of join, leave, clock-in and clock-out requests; and when one
slot is left, of any number of join attempts, in whatever order they are
handled, at most one succeeds, exactly one when the job is open and the
joiners hold no assignment yet. -/
theorem capacity_never_exceeded (j : EngineJob)
    (h : j.current_workers ≤ j.max_workers) :
    (∀ rs : List Request, (serve j rs).current_workers ≤ (serve j rs).max_workers) ∧
    (j.current_workers + 1 = j.max_workers →
      (∀ joiners : List Int, joinSuccesses j joiners ≤ 1) ∧
      (j.status = .open → ∀ joiners : List Int, joiners ≠ [] →
        (∀ u ∈ joiners, u ∉ j.assignments) →
          joinSuccesses j joiners = 1 ∧
          (serve j (joiners.map Request.join)).current_workers = j.max_workers)) := by
  refine ⟨fun rs => serve_capacity rs j h, fun hlast => ⟨fun us => joinSuccesses_lastSlot us j hlast, ?_⟩⟩
  intro hs joiners hne hfresh
  cases joiners with
  | nil => exact absurd rfl hne
  | cons u us =>
    have hu : u ∉ j.assignments := hfresh u (List.mem_cons_self _ _)
    have hj := join_free j u (by omega) hs hu
    have hfull : ({ j with assignments := j.assignments ++ [u] } : EngineJob).current_workers ≥
        ({ j with assignments := j.assignments ++ [u] } : EngineJob).max_workers := by
      simp [EngineJob.current_workers] at hlast ⊢
      omega
    constructor
    · unfold joinSuccesses
      rw [hj]
      simp only
      rw [joinSuccesses_full us _ hfull]
    · have hserve : ∀ (us : List Int) (k : EngineJob), k.current_workers ≥ k.max_workers →
          serve k (us.map Request.join) = k := by
        intro us
        induction us with
        | nil => intro k _; rfl
        | cons v vs ih =>
          intro k hk
          have hv : handle k (Request.join v) = k := by
            simp only [handle, join_full k v hk]
          simp only [List.map_cons, serve, List.foldl_cons, hv]
          exact ih k hk
      have hfirst : handle j (Request.join u) = { j with assignments := j.assignments ++ [u] } := by
        simp only [handle, hj]
      simp only [List.map_cons, serve, List.foldl_cons, hfirst]
      have := hserve us _ hfull
      simp only [serve] at this
      rw [this]
      simp [EngineJob.current_workers] at hlast ⊢
      omega

/-! ## Status line of the modal -/

/-- C11: the status text of the modal is one of `Open`, `In Progress`,
`Pending Review`, `Complete`, chosen by precedence: `Complete` exactly when
`is_complete`; `Pending Review` exactly when not complete and marked for
review; `In Progress` exactly when neither flag is set and some assignment
is clocked in; `Open` exactly when neither flag is set and no assignment is
clocked in. -/
theorem modalStatus_precedence (job : Job) :
    (modalStatus job = "Open" ∨ modalStatus job = "In Progress" ∨
      modalStatus job = "Pending Review" ∨ modalStatus job = "Complete") ∧
    (modalStatus job = "Complete" ↔ job.is_complete = true) ∧
    (modalStatus job = "Pending Review" ↔
      job.is_complete = false ∧ job.marked_for_review = true) ∧
    (modalStatus job = "In Progress" ↔
      job.is_complete = false ∧ job.marked_for_review = false ∧
        ∃ a ∈ job.assignments, a.is_clocked_in = true) ∧
    (modalStatus job = "Open" ↔
      job.is_complete = false ∧ job.marked_for_review = false ∧
        ∀ a ∈ job.assignments, a.is_clocked_in = false) := by
  have hsome : (∃ a ∈ job.assignments, a.is_clocked_in = true) ↔
      job.assignments.any (fun a => a.is_clocked_in) = true := by
    simp [List.any_eq_true]
  have hnone : (∀ a ∈ job.assignments, a.is_clocked_in = false) ↔
      job.assignments.any (fun a => a.is_clocked_in) = false := by
    simp [List.any_eq_false]
  rw [hsome, hnone]
  unfold modalStatus
  cases job.is_complete <;> cases job.marked_for_review <;>
    cases job.assignments.any (fun a => a.is_clocked_in) <;> simp

/-! ## Decimal notation of the printed numbers -/

theorem toDigitsCore_eq_digits (fuel : Nat) : ∀ (n : Nat) (ds : List Char), 0 < n → n < fuel →
    Nat.toDigitsCore 10 fuel n ds = (Nat.digits 10 n).reverse.map Nat.digitChar ++ ds := by
  induction fuel with
  | zero => intro n ds _ h; omega
  | succ fuel ih =>
    intro n ds hpos hlt
    have hdig : Nat.digits 10 n = (n % 10) :: Nat.digits 10 (n / 10) :=
      Nat.digits_def' (by norm_num) hpos
    unfold Nat.toDigitsCore
    by_cases h0 : n / 10 = 0
    · simp [h0, hdig]
    · have hrec := ih (n / 10) (Nat.digitChar (n % 10) :: ds) (Nat.pos_of_ne_zero h0) (by omega)
      simp [h0, hdig, hrec]

theorem repr_eq_decimal (n : Nat) : Nat.repr n = decimal n := by
  unfold decimal
  by_cases h : n = 0
  · subst h; rfl
  · rw [if_neg h]
    have := toDigitsCore_eq_digits (n + 1) n [] (Nat.pos_of_ne_zero h) (by omega)
    simp [Nat.repr, Nat.toDigits, this, List.asString]

theorem padStart_two (m : Nat) (h : m < 100) :
    padStart (Nat.repr m) 2 '0' = twoDigits m := by
  interval_cases m <;> rfl

/-! ## Rounding to a double -/

theorem roundHalfEven_bounds (y : ℚ) :
    (⌊y⌋ : Int) ≤ roundHalfEven y ∧ roundHalfEven y ≤ ⌊y⌋ + 1 ∧
      (roundHalfEven y : ℚ) ≤ y + 1 / 2 ∧ y - 1 / 2 ≤ (roundHalfEven y : ℚ) := by
  have h1 := Int.floor_le y
  have h2 := Int.lt_floor_add_one y
  unfold roundHalfEven
  split_ifs with ha hb hc
  · refine ⟨le_refl _, by omega, by linarith, by linarith⟩
  · refine ⟨by omega, le_refl _, ?_, ?_⟩ <;> push_cast <;> linarith
  · refine ⟨le_refl _, by omega, by linarith, by linarith⟩
  · refine ⟨by omega, le_refl _, ?_, ?_⟩ <;> push_cast <;> linarith

theorem roundHalfEven_intCast (z : Int) : roundHalfEven (z : ℚ) = z := by
  unfold roundHalfEven
  simp

theorem roundHalfEven_mono {y y' : ℚ} (h : y ≤ y') : roundHalfEven y ≤ roundHalfEven y' := by
  have hb := roundHalfEven_bounds y
  have hb' := roundHalfEven_bounds y'
  have hfl : ⌊y⌋ ≤ ⌊y'⌋ := Int.floor_mono h
  rcases lt_or_eq_of_le hfl with hlt | heq
  · omega
  · unfold roundHalfEven
    rw [← heq]
    split_ifs <;> first | omega | (exfalso; linarith)

theorem roundHalfEven_ge_int {y : ℚ} {N : Int} (h : (N : ℚ) ≤ y) : N ≤ roundHalfEven y := by
  have := roundHalfEven_mono h
  rwa [roundHalfEven_intCast] at this

theorem roundHalfEven_le_int {y : ℚ} {N : Int} (h : y ≤ (N : ℚ)) : roundHalfEven y ≤ N := by
  have := roundHalfEven_mono h
  rwa [roundHalfEven_intCast] at this

theorem roundHalfEven_lt_int {y : ℚ} {N : Int} (h : y < (N : ℚ) - 1 / 2) :
    roundHalfEven y < N := by
  have hb := (roundHalfEven_bounds y).2.2.1
  have : (roundHalfEven y : ℚ) < (N : ℚ) := by linarith
  exact_mod_cast this


theorem ulp_pos (x : ℚ) : (0 : ℚ) < 2 ^ ulpExp x := zpow_pos (by norm_num) _

theorem lt_ulp_top {x : ℚ} (hx : 0 < x) : x < 2 ^ (ulpExp x + 53) := by
  have h1 : x < (2 : ℚ) ^ (Int.log 2 x + 1) := by
    have := Int.lt_zpow_succ_log_self (b := 2) (by norm_num) x
    exact_mod_cast this
  have h2 : (2 : ℚ) ^ (Int.log 2 x + 1) ≤ 2 ^ (ulpExp x + 53) := by
    apply zpow_le_zpow_right₀ (by norm_num)
    unfold ulpExp
    rw [abs_of_pos hx]
    have := le_max_left (Int.log 2 x) (-1022)
    omega
  exact lt_of_lt_of_le h1 h2

theorem ulp_bot_le {x : ℚ} (hx : 0 < x) (hn : -1022 ≤ Int.log 2 x) :
    (2 : ℚ) ^ (ulpExp x + 52) ≤ x := by
  have h1 : (2 : ℚ) ^ (Int.log 2 x) ≤ x := by
    have := Int.zpow_log_le_self (b := 2) (r := x) (by norm_num) hx
    exact_mod_cast this
  have h2 : ulpExp x + 52 = Int.log 2 x := by
    unfold ulpExp
    rw [abs_of_pos hx, max_eq_left hn]
    omega
  rw [h2]
  exact h1

theorem scaled_lt {x : ℚ} (hx : 0 < x) : x / 2 ^ ulpExp x < 2 ^ (53 : Nat) := by
  rw [div_lt_iff₀ (ulp_pos x)]
  have := lt_ulp_top hx
  rw [zpow_add₀ (by norm_num : (2 : ℚ) ≠ 0)] at this
  have h53 : (2 : ℚ) ^ (53 : Int) = 2 ^ (53 : Nat) := by norm_cast
  rw [h53] at this
  linarith

theorem scaled_ge {x : ℚ} (hx : 0 < x) (hn : -1022 ≤ Int.log 2 x) :
    (2 : ℚ) ^ (52 : Nat) ≤ x / 2 ^ ulpExp x := by
  rw [le_div_iff₀ (ulp_pos x)]
  have := ulp_bot_le hx hn
  rw [zpow_add₀ (by norm_num : (2 : ℚ) ≠ 0)] at this
  have h52 : (2 : ℚ) ^ (52 : Int) = 2 ^ (52 : Nat) := by norm_cast
  rw [h52] at this
  linarith

theorem roundDouble_le_top {x : ℚ} (hx : 0 < x) : roundDouble x ≤ 2 ^ (ulpExp x + 53) := by
  have h1 : roundHalfEven (x / 2 ^ ulpExp x) ≤ (2 : Int) ^ (53 : Nat) := by
    apply roundHalfEven_le_int
    have := scaled_lt hx
    push_cast
    linarith
  have h2 : (roundHalfEven (x / 2 ^ ulpExp x) : ℚ) ≤ 2 ^ (53 : Nat) := by exact_mod_cast h1
  unfold roundDouble
  rw [zpow_add₀ (by norm_num : (2 : ℚ) ≠ 0), mul_comm ((2 : ℚ) ^ ulpExp x)]
  have h53 : (2 : ℚ) ^ (53 : Int) = 2 ^ (53 : Nat) := by norm_cast
  rw [h53]
  exact mul_le_mul_of_nonneg_right h2 (le_of_lt (ulp_pos x))

theorem roundDouble_ge_bot {x : ℚ} (hx : 0 < x) (hn : -1022 ≤ Int.log 2 x) :
    (2 : ℚ) ^ (ulpExp x + 52) ≤ roundDouble x := by
  have h1 : (2 : Int) ^ (52 : Nat) ≤ roundHalfEven (x / 2 ^ ulpExp x) := by
    apply roundHalfEven_ge_int
    have := scaled_ge hx hn
    push_cast
    linarith
  have h2 : (2 : ℚ) ^ (52 : Nat) ≤ (roundHalfEven (x / 2 ^ ulpExp x) : ℚ) := by exact_mod_cast h1
  unfold roundDouble
  rw [zpow_add₀ (by norm_num : (2 : ℚ) ≠ 0), mul_comm ((2 : ℚ) ^ ulpExp x)]
  have h52 : (2 : ℚ) ^ (52 : Int) = 2 ^ (52 : Nat) := by norm_cast
  rw [h52]
  exact mul_le_mul_of_nonneg_right h2 (le_of_lt (ulp_pos x))

theorem ulpExp_mono {x y : ℚ} (hx : 0 < x) (h : x ≤ y) : ulpExp x ≤ ulpExp y := by
  unfold ulpExp
  rw [abs_of_pos hx, abs_of_pos (lt_of_lt_of_le hx h)]
  have := Int.log_mono_right (b := 2) hx h
  have := max_le_max this (le_refl (-1022 : Int))
  omega

/-- Rounding to a double is monotone on the positive numbers. -/
theorem roundDouble_mono {x y : ℚ} (hx : 0 < x) (h : x ≤ y) : roundDouble x ≤ roundDouble y := by
  have hy : 0 < y := lt_of_lt_of_le hx h
  rcases lt_or_eq_of_le (ulpExp_mono hx h) with hlt | heq
  · have hn : -1022 ≤ Int.log 2 y := by
      by_contra hcon
      have h1 : ulpExp y = -1022 - 52 := by
        unfold ulpExp
        rw [abs_of_pos hy, max_eq_right (by omega)]
      have h2 : -1022 - 52 ≤ ulpExp x := by
        unfold ulpExp
        have := le_max_right (Int.log 2 |x|) (-1022)
        omega
      omega
    calc roundDouble x ≤ 2 ^ (ulpExp x + 53) := roundDouble_le_top hx
      _ ≤ 2 ^ (ulpExp y + 52) := zpow_le_zpow_right₀ (by norm_num) (by omega)
      _ ≤ roundDouble y := roundDouble_ge_bot hy hn
  · unfold roundDouble
    rw [heq]
    apply mul_le_mul_of_nonneg_right _ (le_of_lt (ulp_pos y))
    have : x / 2 ^ ulpExp y ≤ y / 2 ^ ulpExp y := div_le_div_of_nonneg_right h (le_of_lt (ulp_pos y))
    exact_mod_cast roundHalfEven_mono this

theorem roundDouble_nonneg {x : ℚ} (hx : 0 ≤ x) : 0 ≤ roundDouble x := by
  unfold roundDouble
  apply mul_nonneg _ (le_of_lt (ulp_pos x))
  have : (0 : Int) ≤ roundHalfEven (x / 2 ^ ulpExp x) := by
    apply roundHalfEven_ge_int
    push_cast
    exact div_nonneg hx (le_of_lt (ulp_pos x))
  exact_mod_cast this

theorem roundDouble_nonpos {x : ℚ} (hx : x ≤ 0) : roundDouble x ≤ 0 := by
  unfold roundDouble
  apply mul_nonpos_of_nonpos_of_nonneg _ (le_of_lt (ulp_pos x))
  have : roundHalfEven (x / 2 ^ ulpExp x) ≤ (0 : Int) := by
    apply roundHalfEven_le_int
    push_cast
    exact div_nonpos_of_nonpos_of_nonneg hx (le_of_lt (ulp_pos x))
  exact_mod_cast this


theorem ulp_eq_inv {x : ℚ} (ht : ulpExp x ≤ 0) :
    (2 : ℚ) ^ ulpExp x = 1 / 2 ^ (-ulpExp x).toNat := by
  have h : ulpExp x = -((-ulpExp x).toNat : Int) := by omega
  conv_lhs => rw [h]
  rw [zpow_neg, zpow_natCast, one_div]

theorem ulpExp_nonpos {x : ℚ} (hx : 0 < x) (h : x < 2 ^ (53 : Nat)) : ulpExp x ≤ 0 := by
  have h1 : Int.log 2 x < 53 := by
    rw [← Int.lt_zpow_iff_log_lt (by norm_num) hx]
    exact_mod_cast h
  unfold ulpExp
  rw [abs_of_pos hx]
  have := max_le (le_of_lt h1) (by norm_num : (-1022 : Int) ≤ 53)
  have h2 : max (Int.log 2 x) (-1022) ≤ 52 := max_le (by omega) (by norm_num)
  omega

theorem roundDouble_ge_int {x : ℚ} {N : Int} (ht : ulpExp x ≤ 0) (h : (N : ℚ) ≤ x) :
    (N : ℚ) ≤ roundDouble x := by
  have hp : (0 : ℚ) < 2 ^ (-ulpExp x).toNat := by positivity
  have h1 : N * 2 ^ (-ulpExp x).toNat ≤ roundHalfEven (x / 2 ^ ulpExp x) := by
    apply roundHalfEven_ge_int
    rw [ulp_eq_inv ht, div_div_eq_mul_div, div_one]
    push_cast
    exact mul_le_mul_of_nonneg_right h (le_of_lt hp)
  have h2 : (N : ℚ) * 2 ^ (-ulpExp x).toNat ≤ (roundHalfEven (x / 2 ^ ulpExp x) : ℚ) := by
    exact_mod_cast h1
  unfold roundDouble
  rw [ulp_eq_inv ht] at h2 ⊢
  rw [mul_one_div, le_div_iff₀ hp]
  exact h2

theorem roundDouble_le_int {x : ℚ} {N : Int} (ht : ulpExp x ≤ 0) (h : x ≤ (N : ℚ)) :
    roundDouble x ≤ (N : ℚ) := by
  have hp : (0 : ℚ) < 2 ^ (-ulpExp x).toNat := by positivity
  have h1 : roundHalfEven (x / 2 ^ ulpExp x) ≤ N * 2 ^ (-ulpExp x).toNat := by
    apply roundHalfEven_le_int
    rw [ulp_eq_inv ht, div_div_eq_mul_div, div_one]
    push_cast
    exact mul_le_mul_of_nonneg_right h (le_of_lt hp)
  have h2 : (roundHalfEven (x / 2 ^ ulpExp x) : ℚ) ≤ (N : ℚ) * 2 ^ (-ulpExp x).toNat := by
    exact_mod_cast h1
  unfold roundDouble
  rw [ulp_eq_inv ht] at h2 ⊢
  rw [mul_one_div, div_le_iff₀ hp]
  exact h2

/-- Integers below `2^53` are doubles. -/
theorem roundDouble_intCast (n : Int) (h0 : 0 < n) (h : n < 2 ^ (53 : Nat)) :
    roundDouble (n : ℚ) = n := by
  have hx : (0 : ℚ) < (n : ℚ) := by exact_mod_cast h0
  have hlt : (n : ℚ) < 2 ^ (53 : Nat) := by exact_mod_cast h
  have ht := ulpExp_nonpos hx hlt
  exact le_antisymm (roundDouble_le_int ht (le_refl _)) (roundDouble_ge_int ht (le_refl _))


/-- Dividing a double below `2^53` by a whole number and rounding the
quotient to a double never reaches the next integer: the floor of the
rounded quotient is the floor of the exact one. -/
theorem floor_roundDouble_div (m k c : Nat) (hm0 : 0 < m) (hm : m < 2 ^ 53) (hc : 0 < c)
    (hc2 : c ≤ 2 ^ 20) (hk : k ≤ 900) :
    ⌊roundDouble ((m : ℚ) / 2 ^ k / c)⌋ = ⌊(m : ℚ) / 2 ^ k / c⌋ := by
  have hmq : (0 : ℚ) < (m : ℚ) := by exact_mod_cast hm0
  have hmq1 : (1 : ℚ) ≤ (m : ℚ) := by exact_mod_cast hm0
  have hmlt : (m : ℚ) < 2 ^ (53 : Nat) := by exact_mod_cast hm
  have hcq : (0 : ℚ) < (c : ℚ) := by exact_mod_cast hc
  have hcq1 : (1 : ℚ) ≤ (c : ℚ) := by exact_mod_cast hc
  have hcq2 : (c : ℚ) ≤ 2 ^ (20 : Nat) := by exact_mod_cast hc2
  have hkp : (0 : ℚ) < (2 : ℚ) ^ k := by positivity
  have hk1 : (1 : ℚ) ≤ (2 : ℚ) ^ k := one_le_pow₀ (by norm_num)
  have hk2 : (2 : ℚ) ^ k ≤ 2 ^ (900 : Nat) := pow_le_pow_right₀ (by norm_num) hk
  set q : ℚ := (m : ℚ) / 2 ^ k / c with hq
  have hqm : q * ((2 : ℚ) ^ k * c) = m := by
    rw [hq]; field_simp
  have hqpos : 0 < q := by rw [hq]; positivity
  have hqlt : q < 2 ^ (53 : Nat) := by
    have : q ≤ m := by
      have h1 : (1 : ℚ) ≤ (2 : ℚ) ^ k * c := by nlinarith
      nlinarith
    linarith
  have hqge : (2 : ℚ) ^ (-1022 : Int) ≤ q := by
    have h1 : (2 : ℚ) ^ k * c ≤ 2 ^ (900 : Nat) * 2 ^ (20 : Nat) :=
      mul_le_mul hk2 hcq2 (le_of_lt hcq) (by positivity)
    have h2 : (1 : ℚ) ≤ q * (2 ^ (900 : Nat) * 2 ^ (20 : Nat)) := by
      calc (1 : ℚ) ≤ m := hmq1
        _ = q * ((2 : ℚ) ^ k * c) := hqm.symm
        _ ≤ q * (2 ^ (900 : Nat) * 2 ^ (20 : Nat)) :=
          mul_le_mul_of_nonneg_left h1 (le_of_lt hqpos)
    have h3 : (2 : ℚ) ^ (-1022 : Int) * (2 ^ (900 : Nat) * 2 ^ (20 : Nat)) ≤ 1 := by
      rw [← pow_add, ← zpow_natCast, ← zpow_add₀ (by norm_num : (2 : ℚ) ≠ 0)]
      apply zpow_le_one_of_nonpos₀ (by norm_num)
      norm_num
    have hpp : (0 : ℚ) < 2 ^ (900 : Nat) * 2 ^ (20 : Nat) := by positivity
    by_contra hcon
    push_neg at hcon
    have := mul_lt_mul_of_pos_right hcon hpp
    linarith
  have hn : -1022 ≤ Int.log 2 q := by
    rw [← Int.zpow_le_iff_le_log (by norm_num) hqpos]
    exact_mod_cast hqge
  have ht : ulpExp q ≤ 0 := ulpExp_nonpos hqpos hqlt
  have hbot := ulp_bot_le hqpos hn
  rw [zpow_add₀ (by norm_num : (2 : ℚ) ≠ 0)] at hbot
  have h52 : (2 : ℚ) ^ (52 : Int) = 2 ^ (52 : Nat) := by norm_cast
  rw [h52] at hbot
  have hup := ulp_pos q
  have hlow : ((⌊q⌋ : Int) : ℚ) ≤ roundDouble q := roundDouble_ge_int ht (Int.floor_le q)
  have hqn : q < (⌊q⌋ : ℚ) + 1 := Int.lt_floor_add_one q
  -- the gap between `d` and the next multiple of `c` is at least one grid step of `d`
  have hgap : (1 : ℚ) ≤ ((⌊q⌋ : ℚ) + 1) * c * 2 ^ k - m := by
    have hz : (0 : ℚ) < ((⌊q⌋ : ℚ) + 1) * c * 2 ^ k - m := by
      have : q * ((2 : ℚ) ^ k * c) < ((⌊q⌋ : ℚ) + 1) * ((2 : ℚ) ^ k * c) :=
        mul_lt_mul_of_pos_right hqn (by positivity)
      rw [hqm] at this
      linarith
    have hcast : ((⌊q⌋ : ℚ) + 1) * c * 2 ^ k - m =
        (((⌊q⌋ + 1) * c * 2 ^ k - m : Int) : ℚ) := by push_cast; ring
    rw [hcast] at hz ⊢
    have : (0 : Int) < (⌊q⌋ + 1) * c * 2 ^ k - m := by exact_mod_cast hz
    exact_mod_cast (by omega : (1 : Int) ≤ (⌊q⌋ + 1) * c * 2 ^ k - m)
  -- half a unit in the last place of the quotient, times `c`, is below that grid step
  have hhalf : (c : ℚ) * 2 ^ ulpExp q * 2 ^ k < 2 := by
    have h1 : (2 : ℚ) ^ ulpExp q * 2 ^ (52 : Nat) * ((2 : ℚ) ^ k * c) ≤ m := by
      rw [← hqm]
      exact mul_le_mul_of_nonneg_right hbot (by positivity)
    have h2 : (2 : ℚ) ^ ulpExp q * 2 ^ (52 : Nat) * ((2 : ℚ) ^ k * c) < 2 ^ (53 : Nat) :=
      lt_of_le_of_lt h1 hmlt
    have h3 : (2 : ℚ) ^ (53 : Nat) = 2 * 2 ^ (52 : Nat) := by norm_num
    rw [h3] at h2
    have h4 : (0 : ℚ) < 2 ^ (52 : Nat) := by positivity
    nlinarith
  have hupper : roundDouble q < (⌊q⌋ : ℚ) + 1 := by
    have hKp : (0 : ℚ) < 2 ^ (-ulpExp q).toNat := by positivity
    have hinv := ulp_eq_inv ht
    have hsc : q / 2 ^ ulpExp q < (((⌊q⌋ + 1) * 2 ^ (-ulpExp q).toNat : Int) : ℚ) - 1 / 2 := by
      rw [div_lt_iff₀ hup]
      push_cast
      have e1 : (((⌊q⌋ : ℚ) + 1) * 2 ^ (-ulpExp q).toNat - 1 / 2) * 2 ^ ulpExp q =
          (⌊q⌋ : ℚ) + 1 - 2 ^ ulpExp q / 2 := by
        rw [hinv]; field_simp; ring
      rw [e1]
      -- from the two estimates above
      have hck : (0 : ℚ) < (c : ℚ) * 2 ^ k := by positivity
      have h5 : (c : ℚ) * 2 ^ k * (2 ^ ulpExp q / 2) < 1 := by nlinarith
      have h6 : (c : ℚ) * 2 ^ k * q = m := by rw [← hqm]; ring
      have h7 : (c : ℚ) * 2 ^ k * q < (c : ℚ) * 2 ^ k * ((⌊q⌋ : ℚ) + 1 - 2 ^ ulpExp q / 2) := by
        rw [h6]
        have : (c : ℚ) * 2 ^ k * ((⌊q⌋ : ℚ) + 1 - 2 ^ ulpExp q / 2) =
            ((⌊q⌋ : ℚ) + 1) * c * 2 ^ k - (c : ℚ) * 2 ^ k * (2 ^ ulpExp q / 2) := by ring
        rw [this]
        linarith
      exact lt_of_mul_lt_mul_left h7 (le_of_lt hck)
    have hR := roundHalfEven_lt_int hsc
    have hR2 : (roundHalfEven (q / 2 ^ ulpExp q) : ℚ) ≤
        ((⌊q⌋ : ℚ) + 1) * 2 ^ (-ulpExp q).toNat - 1 := by
      have : roundHalfEven (q / 2 ^ ulpExp q) ≤ (⌊q⌋ + 1) * 2 ^ (-ulpExp q).toNat - 1 := by omega
      exact_mod_cast this
    unfold roundDouble
    calc (roundHalfEven (q / 2 ^ ulpExp q) : ℚ) * 2 ^ ulpExp q
        ≤ (((⌊q⌋ : ℚ) + 1) * 2 ^ (-ulpExp q).toNat - 1) * 2 ^ ulpExp q :=
          mul_le_mul_of_nonneg_right hR2 (le_of_lt hup)
      _ = (⌊q⌋ : ℚ) + 1 - 2 ^ ulpExp q := by rw [hinv]; field_simp
      _ < (⌊q⌋ : ℚ) + 1 := by linarith
  rw [Int.floor_eq_iff]
  exact ⟨hlow, hupper⟩


theorem floor_div_pos (q : ℚ) (k : Nat) (hk : 0 < k) : ⌊q / (k : ℚ)⌋ = ⌊q⌋ / (k : Int) := by
  have hkq : (0 : ℚ) < (k : ℚ) := by exact_mod_cast hk
  have hkz : (0 : Int) < (k : Int) := by exact_mod_cast hk
  rw [Int.floor_eq_iff]
  have h1 : ((⌊q⌋ / (k : Int) : Int) : ℚ) * (k : ℚ) ≤ (⌊q⌋ : ℚ) := by
    have : ⌊q⌋ / (k : Int) * (k : Int) ≤ ⌊q⌋ := Int.ediv_mul_le _ (ne_of_gt hkz)
    exact_mod_cast this
  have h2 : (⌊q⌋ : ℚ) + 1 ≤ ((⌊q⌋ / (k : Int) : Int) + 1 : ℚ) * (k : ℚ) := by
    have : ⌊q⌋ + 1 ≤ (⌊q⌋ / (k : Int) + 1) * (k : Int) := by
      have := Int.lt_ediv_add_one_mul_self ⌊q⌋ hkz
      omega
    exact_mod_cast this
  constructor
  · rw [le_div_iff₀ hkq]
    exact le_trans h1 (Int.floor_le q)
  · rw [div_lt_iff₀ hkq]
    exact lt_of_lt_of_le (Int.lt_floor_add_one q) h2

theorem jsRem_of_pos (q : ℚ) (k : Nat) (hq : 0 < q) (hk : 0 < k) :
    jsRem q (k : ℚ) = q - (((k : Int) * (⌊q⌋ / (k : Int)) : Int) : ℚ) := by
  have hkq : (0 : ℚ) < (k : ℚ) := by exact_mod_cast hk
  have hnn : (0 : ℚ) ≤ q / (k : ℚ) := le_of_lt (div_pos hq hkq)
  unfold jsRem jsTrunc
  rw [if_pos hnn, floor_div_pos q k hk]
  push_cast
  ring

theorem roundDouble_zero : roundDouble 0 = 0 := by
  unfold roundDouble
  simp [roundHalfEven]

theorem ofRat_of_bounds {x : ℚ} (h0 : 0 ≤ x) (h : x < 2 ^ (53 : Nat)) :
    Number.ofRat x = .finite (roundDouble x) := by
  have hnn := roundDouble_nonneg h0
  have hle : roundDouble x ≤ (2 : ℚ) ^ (53 : Int) := by
    rcases eq_or_lt_of_le h0 with h00 | hpos
    · rw [← h00, roundDouble_zero]; positivity
    · have h2 : ulpExp x + 53 ≤ 53 := by
        have := ulpExp_nonpos hpos h
        omega
      calc roundDouble x ≤ 2 ^ (ulpExp x + 53) := roundDouble_le_top hpos
        _ ≤ (2 : ℚ) ^ (53 : Int) := zpow_le_zpow_right₀ (by norm_num) h2
  unfold Number.ofRat
  rw [abs_of_nonneg hnn, if_neg]
  push_neg
  calc roundDouble x ≤ (2 : ℚ) ^ (53 : Int) := hle
    _ < (2 : ℚ) ^ (1024 : Int) := zpow_lt_zpow_right₀ (by norm_num) (by norm_num)

/-- On a positive double `m / 2^k` below `2^53` the three numbers of
`formatDuration` are the hours, minutes and seconds of its whole part. -/
theorem hms_grid (m k : Nat) (hm0 : 0 < m) (hm : m < 2 ^ 53) (hk : k ≤ 900) :
    hms (.finite ((m : ℚ) / 2 ^ k)) =
      (.int (⌊(m : ℚ) / 2 ^ k⌋ / 3600), .int (⌊(m : ℚ) / 2 ^ k⌋ % 3600 / 60),
        .int (⌊(m : ℚ) / 2 ^ k⌋ % 60)) := by
  have hmq : (0 : ℚ) < (m : ℚ) := by exact_mod_cast hm0
  have hmlt : (m : ℚ) < 2 ^ (53 : Nat) := by exact_mod_cast hm
  have hkp : (0 : ℚ) < (2 : ℚ) ^ k := by positivity
  have hk1 : (1 : ℚ) ≤ (2 : ℚ) ^ k := one_le_pow₀ (by norm_num)
  set d : ℚ := (m : ℚ) / 2 ^ k with hd
  have hdpos : 0 < d := by rw [hd]; positivity
  have hdm : d * 2 ^ k = m := by rw [hd]; field_simp
  have hdlt : d < 2 ^ (53 : Nat) := by nlinarith
  have hfl0 : 0 ≤ ⌊d⌋ := Int.floor_nonneg.mpr (le_of_lt hdpos)
  -- hours
  have hH : (Number.div (.finite d) 3600).floor = .int (⌊d⌋ / 3600) := by
    have hq0 : (0 : ℚ) ≤ d / 3600 := by positivity
    have hq1 : d / 3600 < 2 ^ (53 : Nat) := by
      have : d / 3600 ≤ d := by
        rw [div_le_iff₀ (by norm_num)]; linarith
      exact lt_of_le_of_lt this hdlt
    have hkey := floor_roundDouble_div m k 3600 hm0 hm (by norm_num) (by norm_num) hk
    have hfd := floor_div_pos d 3600 (by norm_num)
    simp only [Number.div, ofRat_of_bounds hq0 hq1, Number.floor]
    push_cast at hkey hfd
    rw [← hd] at hkey
    rw [hkey, hfd]
  -- seconds
  have hr60 := jsRem_of_pos d 60 hdpos (by norm_num)
  have hS : (Number.rem (.finite d) 60).floor = .int (⌊d⌋ % 60) := by
    simp only [Number.rem, Number.floor]
    have h60 : jsRem d 60 = jsRem d ((60 : Nat) : ℚ) := by norm_num
    rw [h60, hr60, Int.floor_sub_int]
    congr 1
    push_cast
    omega
  -- minutes
  have hr := jsRem_of_pos d 3600 hdpos (by norm_num)
  have hM : ((Number.rem (.finite d) 3600).div 60).floor = .int (⌊d⌋ % 3600 / 60) := by
    have h3600 : jsRem d 3600 = jsRem d ((3600 : Nat) : ℚ) := by norm_num
    simp only [Number.rem, Number.div]
    rw [h3600, hr]
    set r : ℚ := d - (((3600 : Nat) : Int) * (⌊d⌋ / ((3600 : Nat) : Int)) : Int) with hrdef
    have hfr : ⌊r⌋ = ⌊d⌋ - ((3600 : Nat) : Int) * (⌊d⌋ / ((3600 : Nat) : Int)) := by
      rw [hrdef, Int.floor_sub_int]
    have hr0 : 0 ≤ r := by
      have h1 : (0 : ℚ) ≤ (⌊r⌋ : ℚ) := by
        have : (0 : Int) ≤ ⌊r⌋ := by
          rw [hfr]; push_cast; omega
        exact_mod_cast this
      exact le_trans h1 (Int.floor_le r)
    have hrd : r ≤ d := by
      rw [hrdef]
      have : (0 : ℚ) ≤ ((((3600 : Nat) : Int) * (⌊d⌋ / ((3600 : Nat) : Int)) : Int) : ℚ) := by
        have : (0 : Int) ≤ ((3600 : Nat) : Int) * (⌊d⌋ / ((3600 : Nat) : Int)) := by
          push_cast; omega
        exact_mod_cast this
      linarith
    have hq0 : (0 : ℚ) ≤ r / 60 := by positivity
    have hq1 : r / 60 < 2 ^ (53 : Nat) := by
      have : r / 60 ≤ r := by
        rw [div_le_iff₀ (by norm_num)]; linarith
      exact lt_of_le_of_lt (le_trans this hrd) hdlt
    rw [ofRat_of_bounds hq0 hq1]
    simp only [Number.floor]
    congr 1
    have hgoal : ⌊r / 60⌋ = ⌊d⌋ % 3600 / 60 := by
      have := floor_div_pos r 60 (by norm_num)
      push_cast at this hfr
      rw [this, hfr]
      omega
    rw [← hgoal]
    -- the remainder is on the grid of `d`
    have hrm : r * 2 ^ k = ((m - ((3600 : Nat) : Int) * (⌊d⌋ / ((3600 : Nat) : Int)) * 2 ^ k : Int) : ℚ) := by
      rw [hrdef]
      push_cast
      rw [sub_mul, hdm]
    rcases eq_or_lt_of_le hr0 with hz | hpos
    · rw [← hz]
      simp [roundDouble_zero]
    · have hMpos : (0 : Int) < m - ((3600 : Nat) : Int) * (⌊d⌋ / ((3600 : Nat) : Int)) * 2 ^ k := by
        have : (0 : ℚ) < r * 2 ^ k := by positivity
        rw [hrm] at this
        exact_mod_cast this
      obtain ⟨m', hm'⟩ := Int.eq_ofNat_of_zero_le (le_of_lt hMpos)
      have hm'pos : 0 < m' := by omega
      have hm'lt : m' < 2 ^ 53 := by
        have : (m' : ℚ) ≤ m := by
          have h1 : r * 2 ^ k ≤ d * 2 ^ k := mul_le_mul_of_nonneg_right hrd (le_of_lt hkp)
          rw [hrm, hm', hdm] at h1
          exact_mod_cast h1
        have : m' ≤ m := by exact_mod_cast this
        omega
      have hrm' : r = (m' : ℚ) / 2 ^ k := by
        rw [eq_div_iff (ne_of_gt hkp), hrm, hm']
        norm_cast
      have hkey := floor_roundDouble_div m' k 60 hm'pos hm'lt (by norm_num) (by norm_num) hk
      push_cast at hkey
      rw [← hrm'] at hkey
      exact hkey
  unfold hms
  rw [hH, hM, hS]


theorem ulpExp_eq {x : ℚ} {e : Int} (hx : 0 < x) (h1 : (2 : ℚ) ^ e ≤ x) (h2 : x < 2 ^ (e + 1))
    (he : -1022 ≤ e) : ulpExp x = e - 52 := by
  have hlo : e ≤ Int.log 2 x := by
    rw [← Int.zpow_le_iff_le_log (by norm_num) hx]
    exact_mod_cast h1
  have hhi : Int.log 2 x < e + 1 := by
    rw [← Int.lt_zpow_iff_log_lt (by norm_num) hx]
    exact_mod_cast h2
  unfold ulpExp
  rw [abs_of_pos hx, max_eq_left (by omega)]
  omega

theorem roundHalfEven_eq {y : ℚ} {z : Int} (h1 : (z : ℚ) - 1 / 2 < y) (h2 : y < z + 1 / 2) :
    roundHalfEven y = z := by
  have hb := roundHalfEven_bounds y
  have hle : (roundHalfEven y : ℚ) < (z : ℚ) + 1 := by linarith [hb.2.2.1]
  have hge : (z : ℚ) - 1 < (roundHalfEven y : ℚ) := by linarith [hb.2.2.2]
  have hle' : roundHalfEven y < z + 1 := by exact_mod_cast hle
  have hge' : z - 1 < roundHalfEven y := by exact_mod_cast hge
  omega

/-- The double nearest to a positive `x` between `2^(-100)` and `2^52` is
`m / 2^k` for some `m < 2^53`. -/
theorem roundDouble_grid {x : ℚ} (hx : 0 < x) (hlo : (2 : ℚ) ^ (-100 : Int) ≤ x)
    (hhi : x < 2 ^ (52 : Nat)) :
    ∃ m k : Nat, 0 < m ∧ m < 2 ^ 53 ∧ k ≤ 900 ∧ roundDouble x = (m : ℚ) / 2 ^ k := by
  have hlog1 : -100 ≤ Int.log 2 x := by
    rw [← Int.zpow_le_iff_le_log (by norm_num) hx]
    exact_mod_cast hlo
  have hlog2 : Int.log 2 x < 52 := by
    rw [← Int.lt_zpow_iff_log_lt (by norm_num) hx]
    exact_mod_cast hhi
  have ht : ulpExp x = Int.log 2 x - 52 := by
    unfold ulpExp
    rw [abs_of_pos hx, max_eq_left (by omega)]
  have ht0 : ulpExp x ≤ 0 := by omega
  have hK1 : 1 ≤ (-ulpExp x).toNat := by omega
  have hK2 : (-ulpExp x).toNat ≤ 152 := by omega
  have hinv := ulp_eq_inv ht0
  have hKp : (0 : ℚ) < 2 ^ (-ulpExp x).toNat := by positivity
  have hRlo : (2 : Int) ^ (52 : Nat) ≤ roundHalfEven (x / 2 ^ ulpExp x) := by
    apply roundHalfEven_ge_int
    have := scaled_ge hx (by omega)
    push_cast
    linarith
  have hRhi : roundHalfEven (x / 2 ^ ulpExp x) ≤ (2 : Int) ^ (53 : Nat) := by
    apply roundHalfEven_le_int
    have := scaled_lt hx
    push_cast
    linarith
  obtain ⟨R, hR⟩ := Int.eq_ofNat_of_zero_le (le_trans (by positivity) hRlo)
  have hfl : roundDouble x = (R : ℚ) / 2 ^ (-ulpExp x).toNat := by
    unfold roundDouble
    rw [hR, hinv, mul_one_div, Int.cast_natCast]
  rw [hR] at hRlo hRhi
  have hRlo' : 2 ^ 52 ≤ R := by exact_mod_cast hRlo
  have hRhi' : R ≤ 2 ^ 53 := by exact_mod_cast hRhi
  rcases lt_or_eq_of_le hRhi' with hlt | heq
  · exact ⟨R, (-ulpExp x).toNat, by omega, hlt, by omega, hfl⟩
  · refine ⟨2 ^ 52, (-ulpExp x).toNat - 1, by positivity, by norm_num, by omega, ?_⟩
    rw [hfl, heq]
    have hsplit : (-ulpExp x).toNat = ((-ulpExp x).toNat - 1) + 1 := by omega
    rw [div_eq_div_iff (ne_of_gt hKp) (by positivity)]
    conv_rhs => rw [hsplit, pow_succ]
    push_cast
    ring


/-! ## Add-job form -/

theorem addJobForm_maxWorkers_of_nonneg (jobName jobDescription jobRequirements field : String)
    (jobAutoReview : Bool) (h : ∀ n, parseInt field = some n → 0 ≤ n) :
    (addJobFormSubmit jobName jobDescription jobRequirements field jobAutoReview).max_workers
      ≥ 1 := by
  unfold addJobFormSubmit
  cases hp : parseInt field with
  | none => simp
  | some n =>
    have := h n hp
    by_cases h0 : n = 0
    · simp [h0]
    · simp only [h0, if_false]
      omega

/-- C8: with `-5` typed into the max-workers field, the payload handed to
`createJob` carries `max_workers = -5`, below the minimum of 1. -/
theorem addJobForm_negative_maxWorkers :
    (addJobFormSubmit "Fix roof" "" "" "-5" false).max_workers = -5 ∧
    ¬ ((addJobFormSubmit "Fix roof" "" "" "-5" false).max_workers ≥ 1) := by
  have h5 : roundDouble (5 : ℚ) = 5 := by
    have := roundDouble_intCast 5 (by norm_num) (by norm_num)
    exact_mod_cast this
  have hp : parseInt "-5" = some (-5) := by
    have hZ : leadingDigits 10 ['5'] = [5] := by decide
    have hS : "-5".data.dropWhile isStrWhiteSpace = ['-', '5'] := by decide
    unfold parseInt
    simp only [hS]
    simp [hZ, h5]
  have hm : (addJobFormSubmit "Fix roof" "" "" "-5" false).max_workers = -5 := by
    unfold addJobFormSubmit
    simp only [hp]
    decide
  rw [hm]
  decide

/-! ## `formatDuration` in doubles -/

theorem toString_int_natCast (n : Nat) (h : n < 2 ^ 53) :
    Whole.toString (.int (n : Int)) = Nat.repr n := by
  have h0 : ¬ ((n : Int) < 0) := by omega
  simp only [Whole.toString, h0, if_false, natToString, Int.natAbs_ofNat, h, if_true]

theorem formatDurationNum_eq_render (seconds : Number) :
    formatDurationNum seconds = renderParts (shownParts seconds) := by
  unfold formatDurationNum shownParts
  by_cases h : (seconds.falsy || seconds.ltZero) = true
  · rw [if_pos h, if_pos h]
    rfl
  · rw [if_neg h, if_neg h]
    rfl

theorem shownParts_grid (m k : Nat) (hm0 : 0 < m) (hm : m < 2 ^ 53) (hk : k ≤ 900) :
    shownParts (.finite ((m : ℚ) / 2 ^ k)) =
      (.int (⌊(m : ℚ) / 2 ^ k⌋ / 3600), .int (⌊(m : ℚ) / 2 ^ k⌋ % 3600 / 60),
        .int (⌊(m : ℚ) / 2 ^ k⌋ % 60)) := by
  have hmq : (0 : ℚ) < (m : ℚ) := by exact_mod_cast hm0
  have hpos : (0 : ℚ) < (m : ℚ) / 2 ^ k := by positivity
  have h1 : ¬ ((m : ℚ) / 2 ^ k = 0) := ne_of_gt hpos
  have h2 : ¬ ((m : ℚ) / 2 ^ k < 0) := not_lt.mpr (le_of_lt hpos)
  unfold shownParts
  simp only [Number.falsy, Number.ltZero, h1, h2, decide_False, Bool.or_self, Bool.false_eq_true,
    if_false]
  exact hms_grid m k hm0 hm hk

theorem formatDuration_natCast (s : Nat) (h : s < 2 ^ 53) :
    formatDuration (some (s : Int)) = hmsText s := by
  unfold formatDuration
  simp only
  by_cases h0 : s = 0
  · subst h0
    have : Number.ofRat ((0 : Nat) : Int) = .finite 0 := by
      rw [ofRat_of_bounds (by norm_num) (by norm_num)]
      simp [roundDouble_zero]
    rw [this]
    rfl
  · have hs : 0 < s := Nat.pos_of_ne_zero h0
    have hfin : Number.ofRat ((s : Int) : ℚ) = .finite ((s : ℚ) / 2 ^ 0) := by
      rw [ofRat_of_bounds (by positivity) (by exact_mod_cast h),
        roundDouble_intCast s (by exact_mod_cast hs) (by exact_mod_cast h)]
      simp
    rw [hfin, formatDurationNum_eq_render, shownParts_grid s 0 hs h (by norm_num)]
    have hfl : ⌊(s : ℚ) / 2 ^ 0⌋ = (s : Int) := by simp
    rw [hfl]
    have hh : (s : Int) / 3600 = ((s / 3600 : Nat) : Int) := by norm_cast
    have hm : (s : Int) % 3600 / 60 = ((s % 3600 / 60 : Nat) : Int) := by norm_cast
    have hsec : (s : Int) % 60 = ((s % 60 : Nat) : Int) := by norm_cast
    have h53 : s < 9007199254740992 := by simpa using h
    have hb : s / 3600 < 2 ^ 53 := by
      have : (2 : Nat) ^ 53 = 9007199254740992 := by norm_num
      omega
    unfold renderParts hmsText
    simp only [hh, hm, hsec]
    have h60 : ∀ n : Nat, n < 60 → n < 2 ^ 53 := fun n hn =>
      lt_trans hn (by norm_num)
    rw [toString_int_natCast _ hb, toString_int_natCast _ (h60 _ (by omega)),
      toString_int_natCast _ (h60 _ (by omega)), repr_eq_decimal,
      padStart_two _ (by omega), padStart_two _ (by omega)]


theorem ofRat_nonpos_early {x : ℚ} (hx : x ≤ 0) :
    ((Number.ofRat x).falsy || (Number.ofRat x).ltZero) = true := by
  have hr := roundDouble_nonpos hx
  unfold Number.ofRat
  split_ifs with h
  · have hx0 : x < 0 := by
      rcases eq_or_lt_of_le hx with h0 | h0
      · exfalso
        rw [h0, roundDouble_zero, abs_zero] at h
        have : (0 : ℚ) < 2 ^ (1024 : Int) := by positivity
        linarith
      · exact h0
    simp [Number.ltZero, hx0]
  · rcases eq_or_lt_of_le hr with h0 | h0
    · simp [Number.falsy, h0]
    · simp [Number.ltZero, h0]

theorem formatDuration_neg (s : Int) (h : s < 0) : formatDuration (some s) = "0:00:00" := by
  have hx : ((s : Int) : ℚ) ≤ 0 := by exact_mod_cast le_of_lt h
  unfold formatDuration formatDurationNum
  simp only [ofRat_nonpos_early hx, if_true]

/-- The hours that `formatDuration` prints for 3600 * 2^46 + 3584 seconds. -/
theorem hours_rounded_up :
    roundDouble ((253327479039593984 : ℚ) / 3600) = 70368744177665 := by
  have hx : (0 : ℚ) < (253327479039593984 : ℚ) / 3600 := by norm_num
  have he : ulpExp ((253327479039593984 : ℚ) / 3600) = 46 - 52 :=
    ulpExp_eq hx (by norm_num) (by norm_num) (by norm_num)
  have hR : roundHalfEven ((253327479039593984 : ℚ) / 3600 / 2 ^ (46 - 52 : Int)) =
      4503599627370560 := by
    apply roundHalfEven_eq <;> norm_num
  unfold roundDouble
  rw [he, hR]
  norm_num


theorem ofRat_eq_finite {x y : ℚ} (h : roundDouble x = y) (h0 : 0 ≤ y)
    (hy : y < 2 ^ (100 : Nat)) : Number.ofRat x = .finite y := by
  unfold Number.ofRat
  rw [h, abs_of_nonneg h0, if_neg]
  push_neg
  calc y < 2 ^ (100 : Nat) := hy
    _ = (2 : ℚ) ^ (100 : Int) := by norm_cast
    _ < (2 : ℚ) ^ (1024 : Int) := zpow_lt_zpow_right₀ (by norm_num) (by norm_num)

theorem jsRem_eval {x c r : ℚ} {n : Int} (hx : 0 ≤ x / c) (hn : ⌊x / c⌋ = n)
    (hr : x - c * n = r) : jsRem x c = r := by
  unfold jsRem jsTrunc
  rw [if_pos hx, hn, hr]

theorem hms_rounded_up :
    hms (.finite 253327479039593984) =
      (.int 70368744177665, .int 59, .int 44) := by
  have hH : (Number.div (.finite 253327479039593984) 3600).floor = .int 70368744177665 := by
    simp only [Number.div]
    rw [ofRat_eq_finite hours_rounded_up (by norm_num) (by norm_num)]
    simp only [Number.floor]
    simp
  have hr1 : jsRem 253327479039593984 3600 = 3584 := by
    apply jsRem_eval (n := 70368744177664) (by norm_num)
    · rw [Int.floor_eq_iff]; norm_num
    · norm_num
  have hr2 : jsRem 253327479039593984 60 = 44 := by
    apply jsRem_eval (n := 4222124650659899) (by norm_num)
    · rw [Int.floor_eq_iff]; norm_num
    · norm_num
  have hM : ((Number.rem (.finite 253327479039593984) 3600).div 60).floor = .int 59 := by
    simp only [Number.rem, Number.div, hr1]
    rw [ofRat_of_bounds (by norm_num) (by norm_num)]
    simp only [Number.floor]
    congr 1
    have := floor_roundDouble_div 3584 0 60 (by norm_num) (by norm_num) (by norm_num)
      (by norm_num) (by norm_num)
    simp only [Nat.cast_ofNat, pow_zero, div_one] at this
    rw [this, Int.floor_eq_iff]
    norm_num
  have hS : (Number.rem (.finite 253327479039593984) 60).floor = .int 44 := by
    simp only [Number.rem, hr2, Number.floor]
    congr 1
  unfold hms
  rw [hH, hM, hS]

theorem roundDouble_large : roundDouble (253327479039593984 : ℚ) = 253327479039593984 := by
  have hx : (0 : ℚ) < (253327479039593984 : ℚ) := by norm_num
  have he : ulpExp (253327479039593984 : ℚ) = 57 - 52 :=
    ulpExp_eq hx (by norm_num) (by norm_num) (by norm_num)
  have hR : roundHalfEven ((253327479039593984 : ℚ) / 2 ^ (57 - 52 : Int)) =
      7916483719987312 := by
    apply roundHalfEven_eq <;> norm_num
  unfold roundDouble
  rw [he, hR]
  norm_num

theorem formatDuration_rounded_up :
    formatDuration (some 253327479039593984) = "70368744177665:59:44" := by
  have hfin : Number.ofRat ((253327479039593984 : Int) : ℚ) = .finite 253327479039593984 := by
    push_cast
    exact ofRat_eq_finite roundDouble_large (by norm_num) (by norm_num)
  unfold formatDuration
  simp only
  rw [hfin, formatDurationNum_eq_render]
  have hsp : shownParts (.finite 253327479039593984) = hms (.finite 253327479039593984) := by
    unfold shownParts
    simp [Number.falsy, Number.ltZero]
  rw [hsp, hms_rounded_up]
  decide


/-- C12: for a whole number `0 ≤ s < 2^53` of seconds `formatDuration`
returns `H:MM:SS` with `H = s / 3600` in decimal without padding,
`MM = s % 3600 / 60` and `SS = s % 60` in two digits each, where `MM < 60`,
`SS < 60` and `H * 3600 + MM * 60 + SS = s`; `formatDuration(3600)` is
`1:00:00`; a negative or missing value gives `0:00:00`. -/
theorem formatDuration_hms :
    (∀ s : Nat, s < 2 ^ 53 →
      formatDuration (some (s : Int)) =
        decimal (s / 3600) ++ ":" ++ twoDigits (s % 3600 / 60) ++ ":" ++ twoDigits (s % 60) ∧
      s % 3600 / 60 < 60 ∧ s % 60 < 60 ∧
      s / 3600 * 3600 + s % 3600 / 60 * 60 + s % 60 = s) ∧
    formatDuration (some 3600) = "1:00:00" ∧
    (∀ s : Int, s < 0 → formatDuration (some s) = "0:00:00") ∧
    formatDuration none = "0:00:00" := by
  refine ⟨fun s hs => ⟨formatDuration_natCast s hs, by omega, by omega, by omega⟩, ?_,
    formatDuration_neg, rfl⟩
  have := formatDuration_natCast 3600 (by norm_num)
  rw [show ((3600 : Nat) : Int) = 3600 from rfl] at this
  rw [this]
  unfold hmsText
  rw [← repr_eq_decimal]
  decide

/-- C12, as first stated for every whole `s ≥ 0`: at `s = 3600 * 2^46 + 3584`,
a whole number of seconds that is a double, the quotient `s / 3600` is rounded
up to the next double and `formatDuration` prints the hour
`70368744177665`, one more than `s / 3600 = 70368744177664`. -/
theorem formatDuration_hours_rounded_up :
    formatDuration (some 253327479039593984) = "70368744177665:59:44" ∧
    decimal (253327479039593984 / 3600) ++ ":" ++ twoDigits (253327479039593984 % 3600 / 60)
      ++ ":" ++ twoDigits (253327479039593984 % 60) = "70368744177664:59:44" ∧
    formatDuration (some 253327479039593984) ≠
      decimal (253327479039593984 / 3600) ++ ":" ++ twoDigits (253327479039593984 % 3600 / 60)
        ++ ":" ++ twoDigits (253327479039593984 % 60) := by
  have h2 : decimal (253327479039593984 / 3600) ++ ":" ++
      twoDigits (253327479039593984 % 3600 / 60) ++ ":" ++
      twoDigits (253327479039593984 % 60) = "70368744177664:59:44" := by
    rw [← repr_eq_decimal]
    decide
  refine ⟨formatDuration_rounded_up, h2, ?_⟩
  rw [formatDuration_rounded_up, h2]
  decide

/-! ## The running clock timer -/

theorem roundDouble_le_pow {x : ℚ} (hx : 0 < x) (b : Int) (hb : -1021 ≤ b)
    (h : x < (2 : ℚ) ^ b) : roundDouble x ≤ (2 : ℚ) ^ b := by
  have h1 : Int.log 2 x < b := by
    rw [← Int.lt_zpow_iff_log_lt (by norm_num) hx]
    exact_mod_cast h
  have h2 : ulpExp x + 53 ≤ b := by
    unfold ulpExp
    rw [abs_of_pos hx]
    have : max (Int.log 2 x) (-1022) ≤ b - 1 := max_le (by omega) (by omega)
    omega
  exact le_trans (roundDouble_le_top hx) (zpow_le_zpow_right₀ (by norm_num) h2)

theorem early_nan : formatDurationNum .nan = "0:00:00" := by
  unfold formatDurationNum
  simp [Number.falsy]

theorem div_nonpos_early {x : ℚ} (hx : x ≤ 0) :
    (((Number.ofRat x).div 1000).falsy || ((Number.ofRat x).div 1000).ltZero) = true := by
  have hr := roundDouble_nonpos hx
  unfold Number.ofRat
  split_ifs with h
  · have hx0 : x < 0 := by
      rcases eq_or_lt_of_le hx with h0 | h0
      · exfalso
        rw [h0, roundDouble_zero, abs_zero] at h
        have : (0 : ℚ) < 2 ^ (1024 : Int) := by positivity
        linarith
      · exact h0
    simp [Number.div, Number.ltZero, hx0]
  · simp only [Number.div]
    exact ofRat_nonpos_early (div_nonpos_of_nonpos_of_nonneg hr (by norm_num))

/-- The seconds between two instants as `update` computes them: the
difference rounded to a double, divided by 1000 and rounded again. -/
theorem clockDiff_some (st now : TimeValue) :
    clockDiff (some st) now = (Number.ofRat (((now.ms - st.ms : Int) : ℚ))).div 1000 := by
  unfold clockDiff dateNumber Number.sub
  simp only
  push_cast
  rfl

theorem update_before (st now : TimeValue) (h : now.ms ≤ st.ms) :
    update (some st) now = "0:00:00" ∧
      displayedParts (some st) now = (.int 0, .int 0, .int 0) := by
  have hx : (((now.ms - st.ms : Int) : ℚ)) ≤ 0 := by
    exact_mod_cast (by omega : now.ms - st.ms ≤ 0)
  have he := div_nonpos_early hx
  unfold update displayedParts formatDurationNum shownParts
  rw [clockDiff_some]
  simp only [he, if_true, and_self]

theorem update_invalid (now : TimeValue) :
    update none now = "0:00:00" ∧ displayedParts none now = (.int 0, .int 0, .int 0) := by
  have h : clockDiff none now = .nan := by
    unfold clockDiff dateNumber Number.sub Number.div
    rfl
  unfold update displayedParts formatDurationNum shownParts
  rw [h]
  simp [Number.falsy]

/-- Bounds on the difference of two time values. -/
theorem diff_range (st now : TimeValue) :
    (((now.ms - st.ms : Int) : ℚ)) < (2 : ℚ) ^ (55 : Int) := by
  have h1 := now.inRange
  have h2 := st.inRange
  have h3 := abs_le.mp h1
  have h4 := abs_le.mp h2
  have : now.ms - st.ms < 2 ^ 55 := by
    have : (2 : Int) ^ 55 = 36028797018963968 := by norm_num
    omega
  exact_mod_cast this

/-- After the start the difference in seconds is a positive double on a
grid `m / 2^k` with `m < 2^53`. -/
theorem clockDiff_after (st now : TimeValue) (h : st.ms < now.ms) :
    ∃ m k : Nat, 0 < m ∧ m < 2 ^ 53 ∧ k ≤ 900 ∧
      clockDiff (some st) now = .finite ((m : ℚ) / 2 ^ k) ∧
      (m : ℚ) / 2 ^ k =
        roundDouble (roundDouble (((now.ms - st.ms : Int) : ℚ)) / 1000) := by
  set D : ℚ := ((now.ms - st.ms : Int) : ℚ) with hD
  have hD1 : (1 : ℚ) ≤ D := by
    rw [hD]
    exact_mod_cast (by omega : (1 : Int) ≤ now.ms - st.ms)
  have hDpos : 0 < D := by linarith
  have hDlt := diff_range st now
  rw [← hD] at hDlt
  -- the rounded difference
  have ha1 : (1 : ℚ) ≤ roundDouble D := by
    have := roundDouble_mono (by norm_num : (0 : ℚ) < 1) hD1
    have h1 := roundDouble_intCast 1 (by norm_num) (by norm_num)
    push_cast at h1
    rw [h1] at this
    exact this
  have ha2 : roundDouble D ≤ (2 : ℚ) ^ (55 : Int) :=
    roundDouble_le_pow hDpos 55 (by norm_num) hDlt
  have hA : Number.ofRat D = .finite (roundDouble D) := by
    apply ofRat_eq_finite rfl (by linarith)
    calc roundDouble D ≤ (2 : ℚ) ^ (55 : Int) := ha2
      _ < 2 ^ (100 : Nat) := by norm_num
  -- the quotient by 1000
  have hx0 : 0 < roundDouble D / 1000 := by positivity
  have hxlo : (2 : ℚ) ^ (-100 : Int) ≤ roundDouble D / 1000 := by
    rw [le_div_iff₀ (by norm_num)]
    calc (2 : ℚ) ^ (-100 : Int) * 1000 ≤ 1 := by
          rw [zpow_neg]
          norm_num
      _ ≤ roundDouble D := ha1
  have hxhi : roundDouble D / 1000 < 2 ^ (52 : Nat) := by
    rw [div_lt_iff₀ (by norm_num)]
    calc roundDouble D ≤ (2 : ℚ) ^ (55 : Int) := ha2
      _ < 2 ^ (52 : Nat) * 1000 := by norm_num
  obtain ⟨m, k, hm0, hm, hk, hgrid⟩ := roundDouble_grid hx0 hxlo hxhi
  refine ⟨m, k, hm0, hm, hk, ?_, hgrid.symm⟩
  rw [clockDiff_some, ← hD, hA]
  simp only [Number.div]
  rw [ofRat_of_bounds (le_of_lt hx0) (lt_trans hxhi (by norm_num)), hgrid]


/-- The whole seconds `update` counts between two instants. -/
theorem displayedParts_after (st now : TimeValue) (h : st.ms < now.ms) :
    displayedParts (some st) now =
      (.int (⌊roundDouble (roundDouble (((now.ms - st.ms : Int) : ℚ)) / 1000)⌋ / 3600),
        .int (⌊roundDouble (roundDouble (((now.ms - st.ms : Int) : ℚ)) / 1000)⌋ % 3600 / 60),
        .int (⌊roundDouble (roundDouble (((now.ms - st.ms : Int) : ℚ)) / 1000)⌋ % 60)) ∧
      0 ≤ ⌊roundDouble (roundDouble (((now.ms - st.ms : Int) : ℚ)) / 1000)⌋ := by
  obtain ⟨m, k, hm0, hm, hk, hcd, hgrid⟩ := clockDiff_after st now h
  have hpos : (0 : ℚ) < (m : ℚ) / 2 ^ k := by
    have : (0 : ℚ) < (m : ℚ) := by exact_mod_cast hm0
    positivity
  constructor
  · unfold displayedParts
    rw [hcd, shownParts_grid m k hm0 hm hk, hgrid]
  · rw [← hgrid]
    exact Int.floor_nonneg.mpr (le_of_lt hpos)

theorem elapsed_mono (st t1 t2 : TimeValue) (h1 : st.ms < t1.ms) (h : t1.ms ≤ t2.ms) :
    ⌊roundDouble (roundDouble (((t1.ms - st.ms : Int) : ℚ)) / 1000)⌋ ≤
      ⌊roundDouble (roundDouble (((t2.ms - st.ms : Int) : ℚ)) / 1000)⌋ := by
  have hD1 : (0 : ℚ) < ((t1.ms - st.ms : Int) : ℚ) := by
    exact_mod_cast (by omega : (0 : Int) < t1.ms - st.ms)
  have hD : ((t1.ms - st.ms : Int) : ℚ) ≤ ((t2.ms - st.ms : Int) : ℚ) := by
    exact_mod_cast (by omega : t1.ms - st.ms ≤ t2.ms - st.ms)
  have ha := roundDouble_mono hD1 hD
  have ha1 : (1 : ℚ) ≤ roundDouble ((t1.ms - st.ms : Int) : ℚ) := by
    have h1' : (1 : ℚ) ≤ ((t1.ms - st.ms : Int) : ℚ) := by
      exact_mod_cast (by omega : (1 : Int) ≤ t1.ms - st.ms)
    have := roundDouble_mono (by norm_num : (0 : ℚ) < 1) h1'
    have h1 := roundDouble_intCast 1 (by norm_num) (by norm_num)
    push_cast at h1
    rw [h1] at this
    exact this
  apply Int.floor_mono
  apply roundDouble_mono (by positivity)
  exact div_le_div_of_nonneg_right ha (by norm_num)

theorem elapsed_exact (st now : TimeValue) (h : st.ms < now.ms)
    (hb : now.ms - st.ms < 2 ^ 53) :
    ⌊roundDouble (roundDouble (((now.ms - st.ms : Int) : ℚ)) / 1000)⌋ =
      (now.ms - st.ms) / 1000 := by
  obtain ⟨n, hn⟩ := Int.eq_ofNat_of_zero_le (by omega : 0 ≤ now.ms - st.ms)
  have hn0 : 0 < n := by omega
  have hnlt : n < 2 ^ 53 := by
    have : (n : Int) < 2 ^ 53 := by omega
    exact_mod_cast this
  rw [hn, roundDouble_intCast n (by exact_mod_cast hn0) (by exact_mod_cast hnlt)]
  have hkey := floor_roundDouble_div n 0 1000 hn0 hnlt (by norm_num) (by norm_num) (by norm_num)
  simp only [pow_zero, div_one] at hkey
  push_cast at hkey ⊢
  rw [hkey]
  have := Rat.floor_intCast_div_natCast (n : Int) 1000
  push_cast at this
  exact this

/-- C13: for a timer started at `startTime` (an invalid date included) and
two instants `t1 ≤ t2` of the clock, in whole milliseconds as a `Date` holds
them, with all arithmetic in doubles: the text `update` writes is the
rendering of the (hours, minutes, seconds) triple of
`formatDuration((t - startTime) / 1000)`, the three are whole numbers, and
the triple at `t1` is lexicographically at most the one at `t2`.  An instant
at or before the start shows `0:00:00`, and while less than `2^53` ms have
passed the triple is the split of the whole seconds elapsed. -/
theorem update_nondecreasing (startTime : Option TimeValue) (t1 t2 : TimeValue)
    (h : t1.ms ≤ t2.ms) :
    (∃ p1 p2 : Int × Int × Int,
      displayedParts startTime t1 = (.int p1.1, .int p1.2.1, .int p1.2.2) ∧
      displayedParts startTime t2 = (.int p2.1, .int p2.2.1, .int p2.2.2) ∧
      partsLe p1 p2) ∧
    update startTime t1 = renderParts (displayedParts startTime t1) ∧
    update startTime t2 = renderParts (displayedParts startTime t2) ∧
    (∀ st t : TimeValue, t.ms ≤ st.ms → update (some st) t = "0:00:00") ∧
    (∀ st t : TimeValue, st.ms < t.ms → t.ms - st.ms < 2 ^ 53 →
      displayedParts (some st) t =
        (.int ((t.ms - st.ms) / 1000 / 3600), .int ((t.ms - st.ms) / 1000 % 3600 / 60),
          .int ((t.ms - st.ms) / 1000 % 60))) := by
  refine ⟨?_, formatDurationNum_eq_render _, formatDurationNum_eq_render _,
    fun st t ht => (update_before st t ht).1, ?_⟩
  · cases startTime with
    | none =>
      refine ⟨(0, 0, 0), (0, 0, 0), (update_invalid t1).2, (update_invalid t2).2, ?_⟩
      simp [partsLe]
    | some st =>
      by_cases h1 : st.ms < t1.ms
      · have h2 : st.ms < t2.ms := by omega
        obtain ⟨hp1, hn1⟩ := displayedParts_after st t1 h1
        obtain ⟨hp2, hn2⟩ := displayedParts_after st t2 h2
        have hmono := elapsed_mono st t1 t2 h1 h
        refine ⟨(_, _, _), (_, _, _), hp1, hp2, ?_⟩
        unfold partsLe
        simp only
        omega
      · have hb1 := (update_before st t1 (by omega)).2
        by_cases h2 : st.ms < t2.ms
        · obtain ⟨hp2, hn2⟩ := displayedParts_after st t2 h2
          refine ⟨(0, 0, 0), (_, _, _), hb1, hp2, ?_⟩
          unfold partsLe
          simp only
          omega
        · have hb2 := (update_before st t2 (by omega)).2
          refine ⟨(0, 0, 0), (0, 0, 0), hb1, hb2, ?_⟩
          simp [partsLe]
  · intro st t ht hb
    rw [(displayedParts_after st t ht).1, elapsed_exact st t ht hb]

/-! ## Instances on the sample inputs -/

/-- The clock buttons on `busyJob` for the clocked-in worker: one button,
`Clock Out`, and no `Clock In`. -/
theorem clock_buttons_witness :
    ((modalActions busyJob workerAnn).map (fun b => b.label)).count "Clock In" +
        ((modalActions busyJob workerAnn).map (fun b => b.label)).count "Clock Out" = 1 ∧
      offers (modalActions busyJob workerAnn) "Clock Out" ∧
      ¬ offers (modalActions busyJob workerAnn) "Clock In" :=
  ⟨((clock_buttons busyJob workerAnn).1 rfl rfl
      ⟨⟨3, "ann", "AN", true⟩, List.mem_singleton.mpr rfl, rfl⟩).1,
    (clock_buttons busyJob workerAnn).2.2.2.1.mpr
      ⟨rfl, rfl, ⟨3, "ann", "AN", true⟩, rfl, rfl⟩,
    (clock_buttons busyJob workerAnn).2.2.1 rfl⟩

/-- The modal of `pendingJob` offers the administrator nothing. -/
theorem review_job_frozen_witness :
    pendingJob.marked_for_review = true ∧ modalActions pendingJob adminUser = [] :=
  ⟨rfl, (review_job_frozen pendingJob adminUser rfl).1⟩

/-- Three joiners at the last slot of `lastSlotJob`: one gets in. -/
theorem capacity_never_exceeded_witness :
    lastSlotJob.current_workers ≤ lastSlotJob.max_workers ∧
      joinSuccesses lastSlotJob [5, 6, 7] = 1 ∧
      (serve lastSlotJob ([5, 6, 7].map Request.join)).current_workers =
        lastSlotJob.max_workers :=
  ⟨by decide,
    ((capacity_never_exceeded lastSlotJob (by decide)).2 (by decide)).2 rfl [5, 6, 7]
      (by decide) (by decide)⟩

/-- An hour, two minutes and five seconds, printed. -/
theorem formatDuration_hms_witness :
    (3725 : Nat) < 2 ^ 53 ∧ formatDuration (some ((3725 : Nat) : Int)) = "1:02:05" :=
  ⟨by norm_num, by
    rw [(formatDuration_hms.1 3725 (by norm_num)).1, ← repr_eq_decimal]
    decide⟩

/-- A timer started at 1000 ms read at 6500 ms and at 3727000 ms: the
shown triple does not go back. -/
theorem update_nondecreasing_witness :
    firstTick.ms ≤ laterTick.ms ∧
      displayedParts (some timerStart) firstTick = (.int 0, .int 0, .int 5) ∧
      displayedParts (some timerStart) laterTick = (.int 1, .int 2, .int 6) ∧
      update (some timerStart) laterTick = "1:02:06" :=
  ⟨by decide,
    by
      rw [(update_nondecreasing (some timerStart) firstTick laterTick (by decide)).2.2.2.2
        timerStart firstTick (by decide) (by decide)]
      decide,
    by
      rw [(update_nondecreasing (some timerStart) firstTick laterTick (by decide)).2.2.2.2
        timerStart laterTick (by decide) (by decide)]
      decide,
    by
      rw [(update_nondecreasing (some timerStart) firstTick laterTick (by decide)).2.2.1,
        (update_nondecreasing (some timerStart) firstTick laterTick (by decide)).2.2.2.2
          timerStart laterTick (by decide) (by decide)]
      decide⟩

end HoneyBadger
